import Mathlib

/-!
# ProcessProposal (app/process_proposal.go)

A shallow embedding of `(*App).ProcessProposal` and a verification of its
accept / reject / halt behaviour.

The function calls collaborators whose bodies live in other packages
(`MalleatedTxDecoder`, `sdk.MsgTypeURL`, `types.CreateCommitment`, `WriteSquare`,
`da.ExtendShares`, `da.NewDataAvailabilityHeader`, `Hash`).  They are fields of the
`App` structure below, so a theorem holds for all collaborators unless it states what it
assumes of them (`RootBinding`, `LayoutBySize`); the concrete `demoApp` and its variants
only serve to run the definitions on explicit requests.

* byte slices are lists of bytes (a nil and an empty slice are the same list, as
  they are for `string(...)` map keys and for `bytes.Equal`);
* the `map[string]struct{}` of commitments is a list without repetition: the code
  only inserts keys, takes `len` and looks keys up;
* Go errors are their `Error()` strings;
* a call either returns a response or panics, and it appends to the log.
-/

namespace app

/-- A byte. -/
abbrev Byte := Fin 256

/-- A Go byte slice. -/
abbrev Bytes := List Byte

/-! ## Data model -/

/-- The payment declaration `types.MsgPayForMessage`, reduced to the field read here. -/
structure MsgPayForMessage where
  MessageShareCommitment : Bytes
deriving DecidableEq, Repr

/-- An `sdk.Msg` as this function observes it: the value of `sdk.MsgTypeURL(msg)` and the
result of the type assertion `msg.(*types.MsgPayForMessage)` (`none` when `ok` is false). -/
structure Msg where
  typeURL : String
  asMsgPayForMessage : Option MsgPayForMessage
deriving DecidableEq, Repr

/-- A decoded transaction: `GetMsgs()`. -/
structure Tx where
  GetMsgs : List Msg
deriving DecidableEq, Repr

/-- A bulk message of the block body. -/
structure Message where
  NamespaceId : Bytes
  Data : Bytes
deriving DecidableEq, Repr

/-- The `Messages` wrapper of the block body. -/
structure Messages where
  MessagesList : List Message
deriving DecidableEq, Repr

/-- The fields of `req.BlockData` that are read: `Txs`, `Messages`, `OriginalSquareSize`
(a uint64; no arithmetic is done on it here). -/
structure Data where
  Txs : List Bytes
  Messages : Messages
  OriginalSquareSize : Nat
deriving DecidableEq, Repr

/-- The block header: `DataHash` and, as one field, everything else it carries. -/
structure Header where
  DataHash : Bytes
  Other : List Bytes
deriving DecidableEq, Repr

/-- The request `abci.RequestProcessProposal`. -/
structure RequestProcessProposal where
  Header : Header
  BlockData : Data
deriving DecidableEq, Repr

/-- The two verdicts the function returns. -/
inductive ResponseProcessProposal_Result where
  | ACCEPT
  | REJECT
deriving DecidableEq, Repr

/-- The response `abci.ResponseProcessProposal`. -/
structure ResponseProcessProposal where
  Result : ResponseProcessProposal_Result
deriving DecidableEq, Repr

/-- Logger method used for an entry. -/
inductive Level where
  | Error
  | Info
deriving DecidableEq, Repr

/-- One call of `app.Logger().Error(msg, keyvals...)` or `app.Logger().Info(msg, keyvals...)`. -/
structure LogEntry where
  level : Level
  msg : String
  keyvals : List String
deriving DecidableEq, Repr

/-- How a call ends: it returns a response, or it panics with an error. -/
inductive Outcome where
  | returned (resp : ResponseProcessProposal)
  | panicked (err : String)
deriving DecidableEq, Repr

/-- A finished call: the entries it logged, in order, and how it ended. -/
structure Run where
  log : List LogEntry
  outcome : Outcome
deriving DecidableEq, Repr

/-- The collaborators of `ProcessProposal`, with the extended data square and the data
availability header as abstract types. -/
structure App (EDS DAH : Type) where
  /-- The decoder `MalleatedTxDecoder(app.txConfig.TxDecoder())`. -/
  TxDecoder : Bytes → Except String Tx
  /-- The constant `types.URLMsgPayforMessage`. -/
  URLMsgPayforMessage : String
  /-- The function `types.CreateCommitment(k, namespace, message)`. -/
  CreateCommitment : Nat → Bytes → Bytes → Except String Bytes
  /-- The function `WriteSquare(app.txConfig, squareSize, data)`, first and last results. -/
  WriteSquare : Nat → Data → Except String (List Bytes)
  /-- The function `da.ExtendShares(squareSize, shares)`. -/
  ExtendShares : Nat → List Bytes → Except String EDS
  /-- The function `da.NewDataAvailabilityHeader(eds)`. -/
  NewDataAvailabilityHeader : EDS → DAH
  /-- The method `dah.Hash()`. -/
  Hash : DAH → Bytes

/-! ## The function -/

/-- The constant `rejectedPropBlockLog`. -/
def rejectedPropBlockLog : String := "Rejected proposal block:"

/-- The map write `commitments[key] = struct{}{}`. -/
def insertCommitment (commitments : List Bytes) (key : Bytes) : List Bytes :=
  if key ∈ commitments then commitments else commitments ++ [key]

/-- The inner loop `for _, msg := range tx.GetMsgs()` (lines 30-41). -/
def collectMsgs (url : String) (commitments : List Bytes) : List Msg → List Bytes
  | [] => commitments
  | msg :: rest =>
    if msg.typeURL ≠ url then
      collectMsgs url commitments rest
    else
      match msg.asMsgPayForMessage with
      | none => collectMsgs url commitments rest
      | some pfm =>
        collectMsgs url (insertCommitment commitments pfm.MessageShareCommitment) rest

/-- The outer loop `for _, rawTx := range req.BlockData.Txs` (lines 24-43). -/
def collectTxs {EDS DAH : Type} (a : App EDS DAH) (commitments : List Bytes) :
    List Bytes → List Bytes
  | [] => commitments
  | rawTx :: rest =>
    match a.TxDecoder rawTx with
    | .error _ => collectTxs a commitments rest
    | .ok tx => collectTxs a (collectMsgs a.URLMsgPayforMessage commitments tx.GetMsgs) rest

/-- The commitments extracted from the block: the map after lines 23-43. -/
def extractCommitments {EDS DAH : Type} (a : App EDS DAH) (txs : List Bytes) : List Bytes :=
  collectTxs a [] txs

/-- The entry logged when `CreateCommitment` fails (lines 58-64). -/
def logCommitmentFailure (err : String) : LogEntry :=
  ⟨.Error, rejectedPropBlockLog,
    ["reason", "failure to create commitment for included message", "error", err]⟩

/-- The entry logged when a message has no declaration (line 71). -/
def logMissingPFM : LogEntry :=
  ⟨.Info, rejectedPropBlockLog, ["reason", "missing MsgPayForMessage for included message"]⟩

/-- The entry logged when `ExtendShares` fails (lines 88-94). -/
def logErasureFailure (err : String) : LogEntry :=
  ⟨.Error, rejectedPropBlockLog, ["reason", "failure to erasure the data square", "error", err]⟩

/-- The entry logged when the data roots differ (lines 103-107). -/
def logRootMismatch : LogEntry :=
  ⟨.Info, rejectedPropBlockLog,
    ["reason", "proposed data root differs from calculated data root"]⟩

/-- The loop `for _, msg := range req.BlockData.Messages.MessagesList` (lines 55-77):
`some entry` when it returns REJECT after logging `entry`, `none` when it runs to the end. -/
def checkMessages {EDS DAH : Type} (a : App EDS DAH) (squareSize : Nat)
    (commitments : List Bytes) : List Message → Option LogEntry
  | [] => none
  | msg :: rest =>
    match a.CreateCommitment squareSize msg.NamespaceId msg.Data with
    | .error err => some (logCommitmentFailure err)
    | .ok commit =>
      if commit ∉ commitments then
        some logMissingPFM
      else
        checkMessages a squareSize commitments rest

/-- The response with `Result: REJECT`. -/
def reject : Outcome := .returned ⟨.REJECT⟩

/-- The response with `Result: ACCEPT`. -/
def accept : Outcome := .returned ⟨.ACCEPT⟩

/-- The method `(*App).ProcessProposal` (lines 16-116). -/
def ProcessProposal {EDS DAH : Type} (a : App EDS DAH) (req : RequestProcessProposal) : Run :=
  let commitments := extractCommitments a req.BlockData.Txs
  if commitments.length ≠ req.BlockData.Messages.MessagesList.length then
    ⟨[], reject⟩
  else
    match checkMessages a req.BlockData.OriginalSquareSize commitments
        req.BlockData.Messages.MessagesList with
    | some entry => ⟨[entry], reject⟩
    | none =>
      match a.WriteSquare req.BlockData.OriginalSquareSize req.BlockData with
      | .error err => ⟨[], .panicked err⟩
      | .ok dataSquare =>
        match a.ExtendShares req.BlockData.OriginalSquareSize dataSquare with
        | .error err => ⟨[logErasureFailure err], reject⟩
        | .ok eds =>
          let dah := a.NewDataAvailabilityHeader eds
          if a.Hash dah ≠ req.Header.DataHash then
            ⟨[logRootMismatch], reject⟩
          else
            ⟨[], accept⟩

/-! ## A concrete application

Small collaborators on which the definitions can be evaluated.  A raw transaction
`1 :: c` decodes to one payment declaration with commitment `c`, `2 :: c` to two such
declarations, `0 :: _` to a transaction without declarations, anything else fails to
decode.  The commitment of a message is its namespace followed by the first two bytes of
its data; the square holds the transactions, then the message data, padded with empty
shares; the extended square repeats the square; the hash lists the share lengths. -/

/-- The type URL used by `demoApp`. -/
def demoURL : String := "/payment.MsgPayForMessage"

/-- A declaration message carrying `c`. -/
def demoPFM (c : Bytes) : Msg := ⟨demoURL, some ⟨c⟩⟩

/-- The decoder of `demoApp`. -/
def demoDecoder : Bytes → Except String Tx
  | 0 :: _ => .ok ⟨[⟨"/cosmos.bank.v1beta1.MsgSend", none⟩]⟩
  | 1 :: c => .ok ⟨[demoPFM c]⟩
  | 2 :: c => .ok ⟨[demoPFM c, demoPFM c]⟩
  | _ => .error "tx parse error"

/-- The commitment function of `demoApp`. -/
def demoCreateCommitment (k : Nat) (ns data : Bytes) : Except String Bytes :=
  if k * k < data.length then .error "message too large" else .ok (ns ++ data.take 2)

/-- The square builder of `demoApp`. -/
def demoWriteSquare (k : Nat) (data : Data) : Except String (List Bytes) :=
  let shares := data.Txs ++ data.Messages.MessagesList.map Message.Data
  if k * k < shares.length then .error "square too small"
  else .ok (shares ++ List.replicate (k * k - shares.length) [])

/-- The erasure coder of `demoApp`. -/
def demoExtendShares (k : Nat) (shares : List Bytes) : Except String (List Bytes) :=
  if k = 0 ∨ shares.length ≠ k * k then .error "bad square size" else .ok (shares ++ shares)

/-- The hash of `demoApp`. -/
def demoHash (dah : List Bytes) : Bytes :=
  dah.map fun share => Fin.ofNat share.length

/-- The concrete application. -/
def demoApp : App (List Bytes) (List Bytes) where
  TxDecoder := demoDecoder
  URLMsgPayforMessage := demoURL
  CreateCommitment := demoCreateCommitment
  WriteSquare := demoWriteSquare
  ExtendShares := demoExtendShares
  NewDataAvailabilityHeader := id
  Hash := demoHash

/-- A request from its parts. -/
def mkReq (txs : List Bytes) (msgs : List Message) (k : Nat) (dataHash : Bytes) :
    RequestProcessProposal :=
  ⟨⟨dataHash, []⟩, ⟨txs, ⟨msgs⟩, k⟩⟩

/-- The square size of a request, as passed to the collaborators. -/
abbrev squareSizeOf (req : RequestProcessProposal) : Nat := req.BlockData.OriginalSquareSize

/-- The bulk messages of a request. -/
abbrev messagesOf (req : RequestProcessProposal) : List Message :=
  req.BlockData.Messages.MessagesList

/-- An accepted block of `demoApp`: one declaration, one message with that commitment. -/
def demoAccepted : RequestProcessProposal :=
  mkReq [[1, 7, 5, 6]] [⟨[7], [5, 6, 9]⟩] 2 [4, 3, 0, 0, 4, 3, 0, 0]

/-- The empty block with the root of the all-padding square of size one. -/
def demoEmpty : RequestProcessProposal := mkReq [] [] 1 [0, 0]

/-! ## Declarations, as the specification counts them -/

/-- The commitment a decoded message declares: it has the pay-for-message type URL and is a
`MsgPayForMessage`. -/
def declaredBy (url : String) (msg : Msg) : Option Bytes :=
  if msg.typeURL = url then msg.asMsgPayForMessage.map MsgPayForMessage.MessageShareCommitment
  else none

/-- The declarations of one raw transaction, one entry per declaration instance; a
transaction that fails to decode has none. -/
def txDeclarations {EDS DAH : Type} (a : App EDS DAH) (rawTx : Bytes) : List Bytes :=
  match a.TxDecoder rawTx with
  | .error _ => []
  | .ok tx => tx.GetMsgs.filterMap (declaredBy a.URLMsgPayforMessage)

/-- The declarations of a block, in order and with repetitions. -/
def declarations {EDS DAH : Type} (a : App EDS DAH) : List Bytes → List Bytes
  | [] => []
  | rawTx :: rest => txDeclarations a rawTx ++ declarations a rest

/-! ## Changing a request -/

/-- The request with `Header.DataHash` replaced, everything else kept. -/
def withDataHash (req : RequestProcessProposal) (dataHash : Bytes) : RequestProcessProposal :=
  { req with Header := { req.Header with DataHash := dataHash } }

/-- One byte with bit `bit` flipped. -/
def flipBitOfByte (b : Byte) (bit : Nat) : Byte := Fin.ofNat (b.val ^^^ 2 ^ bit)

/-- The byte string with bit `bit` of byte `i` flipped. -/
def flipBit (data : Bytes) (i bit : Nat) : Bytes :=
  data.modify (fun b => flipBitOfByte b bit) i

/-- The request with byte `j` of the data of bulk message `i` set to `b`, the
transactions, the square size and the header kept. -/
def withMessageByte (req : RequestProcessProposal) (i j : Nat) (b : Byte) :
    RequestProcessProposal :=
  { req with
    BlockData := { req.BlockData with
      Messages := ⟨req.BlockData.Messages.MessagesList.modify
        (fun msg => { msg with Data := msg.Data.set j b }) i⟩ } }

/-! ## Further requests for `demoApp` -/

/-- Two declarations, `[7, 5, 6]` and `[9, 9, 9]`, and the same message twice, whose
commitment is `[7, 5, 6]`. -/
def demoOrphan : RequestProcessProposal :=
  mkReq [[1, 7, 5, 6], [1, 9, 9, 9]] [⟨[7], [5, 6, 1]⟩, ⟨[7], [5, 6, 1]⟩] 2
    [4, 4, 3, 3, 4, 4, 3, 3]

/-- One transaction carrying the same declaration twice, and one message. -/
def demoDuplicate : RequestProcessProposal :=
  mkReq [[2, 7, 5, 6]] [⟨[7], [5, 6, 9]⟩] 2 [4, 3, 0, 0, 4, 3, 0, 0]

/-- One message and no transaction at all. -/
def demoUndeclared : RequestProcessProposal :=
  mkReq [] [⟨[7], [5, 6, 9]⟩] 2 [3, 0, 0, 0, 3, 0, 0, 0]

/-- One message and one declaration of another commitment. -/
def demoWrongDeclaration : RequestProcessProposal :=
  mkReq [[1, 7, 5, 5]] [⟨[7], [5, 6, 9]⟩] 2 [4, 3, 0, 0, 4, 3, 0, 0]

/-- One declaration and no message. -/
def demoUnmatched : RequestProcessProposal :=
  mkReq [[1, 7, 5, 6]] [] 2 [4, 0, 0, 0, 4, 0, 0, 0]

/-- A block whose content does not fit the declared square size: four transactions, one of
them a declaration, one message, square size two. -/
def demoOverflow : RequestProcessProposal :=
  mkReq [[1, 7, 5, 6], [0], [0], [0]] [⟨[7], [5, 6, 9]⟩] 2 []

/-! ## Calls in sequence -/

/-- The application between calls: the collaborators and what the logger has received so
far.  `ProcessProposal` reads `app.txConfig` and `app.Logger()` and assigns to no field of
`app`. -/
structure Node (EDS DAH : Type) where
  app : App EDS DAH
  logged : List LogEntry

/-- One call of `ProcessProposal` on a node: the entries of the call go to the logger and
the outcome goes to the caller. -/
def Node.handle {EDS DAH : Type} (n : Node EDS DAH) (req : RequestProcessProposal) :
    Node EDS DAH × Outcome :=
  (⟨n.app, n.logged ++ (ProcessProposal n.app req).log⟩, (ProcessProposal n.app req).outcome)

/-- The node after a sequence of calls, one per request. -/
def Node.handleAll {EDS DAH : Type} (n : Node EDS DAH) :
    List RequestProcessProposal → Node EDS DAH
  | [] => n
  | req :: rest => Node.handleAll (n.handle req).1 rest

/-! ## More ways to change a request -/

/-- The request with the list of bulk messages replaced, everything else kept. -/
def withMessages (req : RequestProcessProposal) (msgs : List Message) :
    RequestProcessProposal :=
  { req with BlockData := { req.BlockData with Messages := ⟨msgs⟩ } }

/-- The request with the whole header replaced, the block data kept. -/
def withHeader (req : RequestProcessProposal) (header : Header) : RequestProcessProposal :=
  { req with Header := header }

/-! ## Exchanging collaborators -/

/-- The application with other root collaborators `NewDataAvailabilityHeader` and `Hash`,
possibly over another header type. -/
def App.withRoot {EDS DAH DAH2 : Type} (a : App EDS DAH) (newHeader : EDS → DAH2)
    (hash : DAH2 → Bytes) : App EDS DAH2 :=
  ⟨a.TxDecoder, a.URLMsgPayforMessage, a.CreateCommitment, a.WriteSquare, a.ExtendShares,
    newHeader, hash⟩

/-- The application with another `WriteSquare`. -/
def App.withWriteSquare {EDS DAH : Type} (a : App EDS DAH)
    (writeSquare : Nat → Data → Except String (List Bytes)) : App EDS DAH :=
  { a with WriteSquare := writeSquare }

/-- The application with another `CreateCommitment`. -/
def App.withCreateCommitment {EDS DAH : Type} (a : App EDS DAH)
    (createCommitment : Nat → Bytes → Bytes → Except String Bytes) : App EDS DAH :=
  { a with CreateCommitment := createCommitment }

/-! ## A stricter coder and further requests -/

/-- A coder that refuses squares whose shares do not all have width four. -/
def demoStrictExtendShares (k : Nat) (shares : List Bytes) : Except String (List Bytes) :=
  if shares.all (fun share => share.length = 4) then demoExtendShares k shares
  else .error "share width"

/-- The application `demoApp` with the stricter coder. -/
def demoStrictApp : App (List Bytes) (List Bytes) :=
  { demoApp with ExtendShares := demoStrictExtendShares }

/-- A block that fails the cardinality check and does not fit its square either: four
transactions, one of them a declaration, no message, square size one. -/
def demoMismatchOverflow : RequestProcessProposal :=
  mkReq [[1, 7, 5, 6], [0], [0], [0]] [] 1 []

/-- A block whose only message cannot have its commitment derived (it is larger than the
square) and that does not fit its square either. -/
def demoUnderivableOverflow : RequestProcessProposal :=
  mkReq [[1, 7, 5, 6]] [⟨[7], [5, 6, 9]⟩] 1 []

/-- Three declarations and three messages: the first message is declared, the second is
not, the third cannot have its commitment derived. -/
def demoSecondUndeclared : RequestProcessProposal :=
  mkReq [[1, 7, 5, 6], [1, 8, 1, 1], [1, 9, 9, 9]]
    [⟨[7], [5, 6, 9]⟩, ⟨[7], [4, 4]⟩, ⟨[8], [1, 1, 0, 0, 0]⟩] 2 []

/-- Three declarations and three messages: the first message is declared, the second
cannot have its commitment derived, the third is not declared. -/
def demoSecondUnderivable : RequestProcessProposal :=
  mkReq [[1, 7, 5, 6], [1, 8, 1, 1], [1, 9, 9, 9]]
    [⟨[7], [5, 6, 9]⟩, ⟨[8], [1, 1, 0, 0, 0]⟩, ⟨[7], [4, 4]⟩] 2 []

/-- The accepted block of `demoApp` under a header with the same `DataHash` and other
fields. -/
def demoAcceptedOtherHeader : RequestProcessProposal :=
  withHeader demoAccepted ⟨[4, 3, 0, 0, 4, 3, 0, 0], [[1, 2], [3]]⟩

/-! ## The collaborators as the specification describes them -/

/-- Two block bodies with the same layout: the same transactions, the same square size, and
bulk messages with the same namespaces and the same data lengths, one by one. -/
def sameLayout (d1 d2 : Data) : Prop :=
  d1.Txs = d2.Txs ∧ d1.OriginalSquareSize = d2.OriginalSquareSize ∧
  d1.Messages.MessagesList.map Message.NamespaceId =
    d2.Messages.MessagesList.map Message.NamespaceId ∧
  d1.Messages.MessagesList.map (fun m => m.Data.length) =
    d2.Messages.MessagesList.map (fun m => m.Data.length)

/-- Modelled from the spec: the square builder, the coding primitive and the root builder,
whose bodies are not part of `process_proposal.go`.  The availability root is "a single
hash value summarizing the Extended Data Square", built over a square that is
"deterministically filled from transactions and messages"; as a cryptographic digest it
binds the content: two block bodies of the same layout from which the same root is derived
are the same body. -/
def RootBinding {EDS DAH : Type} (a : App EDS DAH) : Prop :=
  ∀ (d1 d2 : Data) (sq1 sq2 : List Bytes) (eds1 eds2 : EDS), sameLayout d1 d2 →
    a.WriteSquare d1.OriginalSquareSize d1 = .ok sq1 →
    a.WriteSquare d2.OriginalSquareSize d2 = .ok sq2 →
    a.ExtendShares d1.OriginalSquareSize sq1 = .ok eds1 →
    a.ExtendShares d2.OriginalSquareSize sq2 = .ok eds2 →
    a.Hash (a.NewDataAvailabilityHeader eds1) = a.Hash (a.NewDataAvailabilityHeader eds2) →
    d1 = d2

/-- Modelled from the spec: the square builder, whose body is not part of
`process_proposal.go`, "fails if the declared square size cannot hold the supplied
content": whether it succeeds is decided by the layout of the block body, not by the bytes
of the messages. -/
def LayoutBySize {EDS DAH : Type} (a : App EDS DAH) : Prop :=
  ∀ (d1 d2 : Data) (sq1 : List Bytes), sameLayout d1 d2 →
    a.WriteSquare d1.OriginalSquareSize d1 = .ok sq1 →
    ∃ sq2, a.WriteSquare d2.OriginalSquareSize d2 = .ok sq2

/-- The shares of a square, one after the other. -/
def demoConcat : List Bytes → Bytes
  | [] => []
  | share :: rest => share ++ demoConcat rest

/-- The application `demoApp` with a root that keeps every byte of the extended square. -/
def demoBindingApp : App (List Bytes) (List Bytes) :=
  { demoApp with Hash := demoConcat }

/-- An accepted block of `demoBindingApp`: one declaration, one message with that
commitment, and the root of its square. -/
def demoBound : RequestProcessProposal :=
  mkReq [[1, 7, 5, 6]] [⟨[7], [5, 6, 9]⟩] 2 [1, 7, 5, 6, 5, 6, 9, 1, 7, 5, 6, 5, 6, 9]

/-! ## The exits of a call -/

/-- The exits of `ProcessProposal`, one constructor for each `return` and for the `panic`,
with the conditions under which the exit is taken and what the call has logged by then. -/
inductive Exit {EDS DAH : Type} (a : App EDS DAH) (req : RequestProcessProposal) :
    Run → Prop where
  /-- Lines 47-51: the sizes differ. -/
  | cardinality
      (hlen : (extractCommitments a req.BlockData.Txs).length ≠
        req.BlockData.Messages.MessagesList.length) :
      Exit a req ⟨[], reject⟩
  /-- Lines 57-68: the first message that does not pass cannot have its commitment
  derived. -/
  | derivation (before after : List Message) (m : Message) (err : String)
      (hlen : (extractCommitments a req.BlockData.Txs).length =
        req.BlockData.Messages.MessagesList.length)
      (hsplit : req.BlockData.Messages.MessagesList = before ++ m :: after)
      (hbefore : ∀ msg ∈ before, ∃ commit,
        a.CreateCommitment req.BlockData.OriginalSquareSize msg.NamespaceId msg.Data
          = .ok commit ∧ commit ∈ extractCommitments a req.BlockData.Txs)
      (hm : a.CreateCommitment req.BlockData.OriginalSquareSize m.NamespaceId m.Data
        = .error err) :
      Exit a req ⟨[logCommitmentFailure err], reject⟩
  /-- Lines 70-75: the first message that does not pass has an undeclared commitment. -/
  | missing (before after : List Message) (m : Message) (commit : Bytes)
      (hlen : (extractCommitments a req.BlockData.Txs).length =
        req.BlockData.Messages.MessagesList.length)
      (hsplit : req.BlockData.Messages.MessagesList = before ++ m :: after)
      (hbefore : ∀ msg ∈ before, ∃ commit,
        a.CreateCommitment req.BlockData.OriginalSquareSize msg.NamespaceId msg.Data
          = .ok commit ∧ commit ∈ extractCommitments a req.BlockData.Txs)
      (hm : a.CreateCommitment req.BlockData.OriginalSquareSize m.NamespaceId m.Data
        = .ok commit)
      (hnot : commit ∉ extractCommitments a req.BlockData.Txs) :
      Exit a req ⟨[logMissingPFM], reject⟩
  /-- Lines 80-84: the square cannot be built. -/
  | overflow (err : String)
      (hlen : (extractCommitments a req.BlockData.Txs).length =
        req.BlockData.Messages.MessagesList.length)
      (hall : ∀ msg ∈ req.BlockData.Messages.MessagesList, ∃ commit,
        a.CreateCommitment req.BlockData.OriginalSquareSize msg.NamespaceId msg.Data
          = .ok commit ∧ commit ∈ extractCommitments a req.BlockData.Txs)
      (hw : a.WriteSquare req.BlockData.OriginalSquareSize req.BlockData = .error err) :
      Exit a req ⟨[], .panicked err⟩
  /-- Lines 86-98: the square cannot be extended. -/
  | coding (dataSquare : List Bytes) (err : String)
      (hlen : (extractCommitments a req.BlockData.Txs).length =
        req.BlockData.Messages.MessagesList.length)
      (hall : ∀ msg ∈ req.BlockData.Messages.MessagesList, ∃ commit,
        a.CreateCommitment req.BlockData.OriginalSquareSize msg.NamespaceId msg.Data
          = .ok commit ∧ commit ∈ extractCommitments a req.BlockData.Txs)
      (hw : a.WriteSquare req.BlockData.OriginalSquareSize req.BlockData = .ok dataSquare)
      (he : a.ExtendShares req.BlockData.OriginalSquareSize dataSquare = .error err) :
      Exit a req ⟨[logErasureFailure err], reject⟩
  /-- Lines 100-111: the derived root is not the one of the header. -/
  | rootMismatch (dataSquare : List Bytes) (eds : EDS)
      (hlen : (extractCommitments a req.BlockData.Txs).length =
        req.BlockData.Messages.MessagesList.length)
      (hall : ∀ msg ∈ req.BlockData.Messages.MessagesList, ∃ commit,
        a.CreateCommitment req.BlockData.OriginalSquareSize msg.NamespaceId msg.Data
          = .ok commit ∧ commit ∈ extractCommitments a req.BlockData.Txs)
      (hw : a.WriteSquare req.BlockData.OriginalSquareSize req.BlockData = .ok dataSquare)
      (he : a.ExtendShares req.BlockData.OriginalSquareSize dataSquare = .ok eds)
      (hr : a.Hash (a.NewDataAvailabilityHeader eds) ≠ req.Header.DataHash) :
      Exit a req ⟨[logRootMismatch], reject⟩
  /-- Lines 113-115: every stage passed. -/
  | accepted (dataSquare : List Bytes) (eds : EDS)
      (hlen : (extractCommitments a req.BlockData.Txs).length =
        req.BlockData.Messages.MessagesList.length)
      (hall : ∀ msg ∈ req.BlockData.Messages.MessagesList, ∃ commit,
        a.CreateCommitment req.BlockData.OriginalSquareSize msg.NamespaceId msg.Data
          = .ok commit ∧ commit ∈ extractCommitments a req.BlockData.Txs)
      (hw : a.WriteSquare req.BlockData.OriginalSquareSize req.BlockData = .ok dataSquare)
      (he : a.ExtendShares req.BlockData.OriginalSquareSize dataSquare = .ok eds)
      (hr : a.Hash (a.NewDataAvailabilityHeader eds) = req.Header.DataHash) :
      Exit a req ⟨[], accept⟩

/-- A node that has logged nothing yet. -/
def demoNode : Node (List Bytes) (List Bytes) := ⟨demoApp, []⟩

/-! ## The per-message loop -/

theorem checkMessages_eq_none_iff {EDS DAH : Type} (a : App EDS DAH) (k : Nat)
    (cs : List Bytes) (msgs : List Message) :
    checkMessages a k cs msgs = none ↔
      ∀ msg ∈ msgs, ∃ commit, a.CreateCommitment k msg.NamespaceId msg.Data = .ok commit ∧
        commit ∈ cs := by
  induction msgs with
  | nil => simp [checkMessages]
  | cons m rest ih =>
    rw [checkMessages]
    cases hc : a.CreateCommitment k m.NamespaceId m.Data with
    | error err => simp [hc]
    | ok commit =>
      by_cases hmem : commit ∈ cs
      · simp [hc, hmem, ih]
      · simp [hc, hmem]

/-! ## The outcome, stage by stage -/

theorem ProcessProposal_of_length_ne {EDS DAH : Type} (a : App EDS DAH)
    (req : RequestProcessProposal)
    (h : (extractCommitments a req.BlockData.Txs).length ≠ (messagesOf req).length) :
    ProcessProposal a req = ⟨[], reject⟩ := by
  unfold ProcessProposal
  simp only [messagesOf] at h
  simp [h]

theorem ProcessProposal_of_check_some {EDS DAH : Type} (a : App EDS DAH)
    (req : RequestProcessProposal) (entry : LogEntry)
    (h : (extractCommitments a req.BlockData.Txs).length = (messagesOf req).length)
    (hc : checkMessages a (squareSizeOf req) (extractCommitments a req.BlockData.Txs)
      (messagesOf req) = some entry) :
    ProcessProposal a req = ⟨[entry], reject⟩ := by
  unfold ProcessProposal
  simp only [messagesOf, squareSizeOf] at h hc
  simp [h, hc]

theorem ProcessProposal_of_write_error {EDS DAH : Type} (a : App EDS DAH)
    (req : RequestProcessProposal) (err : String)
    (h : (extractCommitments a req.BlockData.Txs).length = (messagesOf req).length)
    (hc : checkMessages a (squareSizeOf req) (extractCommitments a req.BlockData.Txs)
      (messagesOf req) = none)
    (hw : a.WriteSquare (squareSizeOf req) req.BlockData = .error err) :
    ProcessProposal a req = ⟨[], .panicked err⟩ := by
  unfold ProcessProposal
  simp only [messagesOf, squareSizeOf] at h hc hw
  simp [h, hc, hw]

theorem ProcessProposal_of_extend_error {EDS DAH : Type} (a : App EDS DAH)
    (req : RequestProcessProposal) (dataSquare : List Bytes) (err : String)
    (h : (extractCommitments a req.BlockData.Txs).length = (messagesOf req).length)
    (hc : checkMessages a (squareSizeOf req) (extractCommitments a req.BlockData.Txs)
      (messagesOf req) = none)
    (hw : a.WriteSquare (squareSizeOf req) req.BlockData = .ok dataSquare)
    (he : a.ExtendShares (squareSizeOf req) dataSquare = .error err) :
    ProcessProposal a req = ⟨[logErasureFailure err], reject⟩ := by
  unfold ProcessProposal
  simp only [messagesOf, squareSizeOf] at h hc hw he
  simp [h, hc, hw, he]

theorem ProcessProposal_of_root_ne {EDS DAH : Type} (a : App EDS DAH)
    (req : RequestProcessProposal) (dataSquare : List Bytes) (eds : EDS)
    (h : (extractCommitments a req.BlockData.Txs).length = (messagesOf req).length)
    (hc : checkMessages a (squareSizeOf req) (extractCommitments a req.BlockData.Txs)
      (messagesOf req) = none)
    (hw : a.WriteSquare (squareSizeOf req) req.BlockData = .ok dataSquare)
    (he : a.ExtendShares (squareSizeOf req) dataSquare = .ok eds)
    (hr : a.Hash (a.NewDataAvailabilityHeader eds) ≠ req.Header.DataHash) :
    ProcessProposal a req = ⟨[logRootMismatch], reject⟩ := by
  unfold ProcessProposal
  simp only [messagesOf, squareSizeOf] at h hc hw he
  simp [h, hc, hw, he, hr]

theorem ProcessProposal_of_root_eq {EDS DAH : Type} (a : App EDS DAH)
    (req : RequestProcessProposal) (dataSquare : List Bytes) (eds : EDS)
    (h : (extractCommitments a req.BlockData.Txs).length = (messagesOf req).length)
    (hc : checkMessages a (squareSizeOf req) (extractCommitments a req.BlockData.Txs)
      (messagesOf req) = none)
    (hw : a.WriteSquare (squareSizeOf req) req.BlockData = .ok dataSquare)
    (he : a.ExtendShares (squareSizeOf req) dataSquare = .ok eds)
    (hr : a.Hash (a.NewDataAvailabilityHeader eds) = req.Header.DataHash) :
    ProcessProposal a req = ⟨[], accept⟩ := by
  unfold ProcessProposal
  simp only [messagesOf, squareSizeOf] at h hc hw he
  simp [h, hc, hw, he, hr]

/-- The stage at which a call ends, read off the collaborators' results. -/
theorem ProcessProposal_cases {EDS DAH : Type} (a : App EDS DAH)
    (req : RequestProcessProposal) :
    ((extractCommitments a req.BlockData.Txs).length ≠ (messagesOf req).length ∧
        ProcessProposal a req = ⟨[], reject⟩) ∨
    ((extractCommitments a req.BlockData.Txs).length = (messagesOf req).length ∧
      ((∃ entry, checkMessages a (squareSizeOf req) (extractCommitments a req.BlockData.Txs)
            (messagesOf req) = some entry ∧ ProcessProposal a req = ⟨[entry], reject⟩) ∨
       (checkMessages a (squareSizeOf req) (extractCommitments a req.BlockData.Txs)
            (messagesOf req) = none ∧
          ((∃ err, a.WriteSquare (squareSizeOf req) req.BlockData = .error err ∧
              ProcessProposal a req = ⟨[], .panicked err⟩) ∨
           (∃ dataSquare, a.WriteSquare (squareSizeOf req) req.BlockData = .ok dataSquare ∧
              ((∃ err, a.ExtendShares (squareSizeOf req) dataSquare = .error err ∧
                  ProcessProposal a req = ⟨[logErasureFailure err], reject⟩) ∨
               (∃ eds, a.ExtendShares (squareSizeOf req) dataSquare = .ok eds ∧
                  ((a.Hash (a.NewDataAvailabilityHeader eds) ≠ req.Header.DataHash ∧
                      ProcessProposal a req = ⟨[logRootMismatch], reject⟩) ∨
                   (a.Hash (a.NewDataAvailabilityHeader eds) = req.Header.DataHash ∧
                      ProcessProposal a req = ⟨[], accept⟩))))))))) := by
  by_cases h : (extractCommitments a req.BlockData.Txs).length = (messagesOf req).length
  · refine Or.inr ⟨h, ?_⟩
    cases hc : checkMessages a (squareSizeOf req) (extractCommitments a req.BlockData.Txs)
        (messagesOf req) with
    | some entry => exact Or.inl ⟨entry, rfl, ProcessProposal_of_check_some a req entry h hc⟩
    | none =>
      refine Or.inr ⟨rfl, ?_⟩
      cases hw : a.WriteSquare (squareSizeOf req) req.BlockData with
      | error err => exact Or.inl ⟨err, rfl, ProcessProposal_of_write_error a req err h hc hw⟩
      | ok dataSquare =>
        refine Or.inr ⟨dataSquare, rfl, ?_⟩
        cases he : a.ExtendShares (squareSizeOf req) dataSquare with
        | error err =>
          exact Or.inl ⟨err, rfl, ProcessProposal_of_extend_error a req dataSquare err h hc hw he⟩
        | ok eds =>
          refine Or.inr ⟨eds, rfl, ?_⟩
          by_cases hr : a.Hash (a.NewDataAvailabilityHeader eds) = req.Header.DataHash
          · exact Or.inr ⟨hr, ProcessProposal_of_root_eq a req dataSquare eds h hc hw he hr⟩
          · exact Or.inl ⟨hr, ProcessProposal_of_root_ne a req dataSquare eds h hc hw he hr⟩
  · exact Or.inl ⟨h, ProcessProposal_of_length_ne a req h⟩

theorem ProcessProposal_outcome_accept_iff {EDS DAH : Type} (a : App EDS DAH)
    (req : RequestProcessProposal) :
    (ProcessProposal a req).outcome = accept ↔
      (extractCommitments a req.BlockData.Txs).length = (messagesOf req).length ∧
      checkMessages a (squareSizeOf req) (extractCommitments a req.BlockData.Txs)
        (messagesOf req) = none ∧
      ∃ dataSquare, a.WriteSquare (squareSizeOf req) req.BlockData = .ok dataSquare ∧
        ∃ eds, a.ExtendShares (squareSizeOf req) dataSquare = .ok eds ∧
          a.Hash (a.NewDataAvailabilityHeader eds) = req.Header.DataHash := by
  constructor
  · intro hacc
    rcases ProcessProposal_cases a req with ⟨_, hrun⟩ | ⟨h, hrest⟩
    · rw [hrun] at hacc; simp [reject, accept] at hacc
    · refine ⟨h, ?_⟩
      rcases hrest with ⟨entry, _, hrun⟩ | ⟨hc, hrest⟩
      · rw [hrun] at hacc; simp [reject, accept] at hacc
      · refine ⟨hc, ?_⟩
        rcases hrest with ⟨err, _, hrun⟩ | ⟨dataSquare, hw, hrest⟩
        · rw [hrun] at hacc; simp [accept] at hacc
        · refine ⟨dataSquare, hw, ?_⟩
          rcases hrest with ⟨err, _, hrun⟩ | ⟨eds, he, hrest⟩
          · rw [hrun] at hacc; simp [reject, accept] at hacc
          · refine ⟨eds, he, ?_⟩
            rcases hrest with ⟨_, hrun⟩ | ⟨hr, _⟩
            · rw [hrun] at hacc; simp [reject, accept] at hacc
            · exact hr
  · rintro ⟨h, hc, dataSquare, hw, eds, he, hr⟩
    rw [ProcessProposal_of_root_eq a req dataSquare eds h hc hw he hr]

/-- A call that does not accept and does not panic rejects. -/
theorem outcome_trichotomy (o : Outcome) :
    o = accept ∨ o = reject ∨ ∃ err, o = .panicked err := by
  cases o with
  | returned resp =>
    cases resp with
    | mk r => cases r <;> simp [accept, reject]
  | panicked err => exact Or.inr (Or.inr ⟨err, rfl⟩)

theorem unmatched_of_checkMessages_some {EDS DAH : Type} (a : App EDS DAH) (k : Nat)
    (cs : List Bytes) (msgs : List Message) (entry : LogEntry)
    (h : checkMessages a k cs msgs = some entry) :
    ∃ msg ∈ msgs, ∀ commit, a.CreateCommitment k msg.NamespaceId msg.Data = .ok commit →
      commit ∉ cs := by
  induction msgs with
  | nil => simp [checkMessages] at h
  | cons m rest ih =>
    rw [checkMessages] at h
    cases hc : a.CreateCommitment k m.NamespaceId m.Data with
    | error err =>
      exact ⟨m, List.mem_cons_self m rest, fun commit hok =>
        Except.noConfusion (hc.symm.trans hok)⟩
    | ok c =>
      rw [hc] at h
      by_cases hmem : c ∈ cs
      · obtain ⟨msg, hmsg, hno⟩ := ih (by simpa [hmem] using h)
        exact ⟨msg, List.mem_cons_of_mem m hmsg, hno⟩
      · refine ⟨m, List.mem_cons_self m rest, fun commit hok => ?_⟩
        obtain rfl : c = commit := Except.ok.inj (hc.symm.trans hok)
        exact hmem

/-- The run is the rejection that logs nothing exactly when the cardinality check fails. -/
theorem ProcessProposal_eq_unlogged_reject_iff {EDS DAH : Type} (a : App EDS DAH)
    (req : RequestProcessProposal) :
    ProcessProposal a req = ⟨[], reject⟩ ↔
      (extractCommitments a req.BlockData.Txs).length ≠ (messagesOf req).length := by
  constructor
  · intro hrun hlen
    rcases ProcessProposal_cases a req with ⟨hne, _⟩ | ⟨_, hrest⟩
    · exact hne hlen
    · rcases hrest with ⟨entry, _, h⟩ | ⟨_, ⟨err, _, h⟩ | ⟨sq, _, hrest⟩⟩
      · rw [h] at hrun; simp at hrun
      · rw [h] at hrun; simp [reject] at hrun
      · rcases hrest with ⟨err, _, h⟩ | ⟨eds, _, ⟨_, h⟩ | ⟨_, h⟩⟩
        · rw [h] at hrun; simp at hrun
        · rw [h] at hrun; simp at hrun
        · rw [h] at hrun; simp [reject, accept] at hrun
  · exact ProcessProposal_of_length_ne a req

/-- The stage failures that end in REJECT, and only they. -/
theorem ProcessProposal_outcome_reject_iff {EDS DAH : Type} (a : App EDS DAH)
    (req : RequestProcessProposal) :
    (ProcessProposal a req).outcome = reject ↔
      ((extractCommitments a req.BlockData.Txs).length ≠
          req.BlockData.Messages.MessagesList.length ∨
        (∃ msg ∈ req.BlockData.Messages.MessagesList, ∀ commit,
          a.CreateCommitment req.BlockData.OriginalSquareSize msg.NamespaceId msg.Data
            = .ok commit → commit ∉ extractCommitments a req.BlockData.Txs) ∨
        ∃ dataSquare,
          a.WriteSquare req.BlockData.OriginalSquareSize req.BlockData = .ok dataSquare ∧
          ((∃ err, a.ExtendShares req.BlockData.OriginalSquareSize dataSquare
              = .error err) ∨
            ∃ eds, a.ExtendShares req.BlockData.OriginalSquareSize dataSquare = .ok eds ∧
              a.Hash (a.NewDataAvailabilityHeader eds) ≠ req.Header.DataHash)) := by
  constructor
  · intro hrej
    rcases ProcessProposal_cases a req with ⟨hne, _⟩ | ⟨_, hrest⟩
    · exact Or.inl hne
    · rcases hrest with ⟨entry, hc, _⟩ | ⟨_, ⟨err, _, h⟩ | ⟨sq, hw, hrest⟩⟩
      · exact Or.inr (Or.inl (unmatched_of_checkMessages_some a _ _ _ entry hc))
      · rw [h] at hrej; simp [reject] at hrej
      · refine Or.inr (Or.inr ⟨sq, hw, ?_⟩)
        rcases hrest with ⟨err, he, _⟩ | ⟨eds, he, ⟨hr, _⟩ | ⟨_, h⟩⟩
        · exact Or.inl ⟨err, he⟩
        · exact Or.inr ⟨eds, he, hr⟩
        · rw [h] at hrej; simp [reject, accept] at hrej
  · intro hfail
    rcases ProcessProposal_cases a req with ⟨_, h⟩ | ⟨hlen, hrest⟩
    · rw [h]
    · rcases hrest with ⟨entry, _, h⟩ | ⟨hc, hrest⟩
      · rw [h]
      · rcases hfail with hne | ⟨msg, hmem, hno⟩ | ⟨sq, hw, hlater⟩
        · exact absurd hlen hne
        · obtain ⟨commit, hok, hin⟩ := (checkMessages_eq_none_iff a _ _ _).1 hc msg hmem
          exact absurd hin (hno commit hok)
        · rcases hrest with ⟨err, hw1, _⟩ | ⟨sq1, hw1, hrest⟩
          · have hw2 : a.WriteSquare req.BlockData.OriginalSquareSize req.BlockData
                = .error err := hw1
            rw [hw] at hw2
            exact Except.noConfusion hw2
          · have hw2 : a.WriteSquare req.BlockData.OriginalSquareSize req.BlockData
                = .ok sq1 := hw1
            rw [hw] at hw2
            obtain rfl : sq = sq1 := Except.ok.inj hw2
            rcases hrest with ⟨err, _, h⟩ | ⟨eds, he, ⟨_, h⟩ | ⟨hr, _⟩⟩
            · rw [h]
            · rw [h]
            · have he1 : a.ExtendShares req.BlockData.OriginalSquareSize sq = .ok eds := he
              rcases hlater with ⟨err, he2⟩ | ⟨eds2, he2, hne⟩
              · rw [he1] at he2
                exact Except.noConfusion he2
              · rw [he1] at he2
                obtain rfl : eds = eds2 := Except.ok.inj he2
                exact absurd hr hne

/-! ## The extracted set -/

theorem collectMsgs_eq_foldl (url : String) (cs : List Bytes) (msgs : List Msg) :
    collectMsgs url cs msgs = (msgs.filterMap (declaredBy url)).foldl insertCommitment cs := by
  induction msgs generalizing cs with
  | nil => rfl
  | cons m rest ih =>
    rw [collectMsgs]
    by_cases hurl : m.typeURL = url
    · cases hp : m.asMsgPayForMessage with
      | none => simp [hurl, hp, ih, List.filterMap_cons, declaredBy]
      | some pfm => simp [hurl, hp, ih, List.filterMap_cons, declaredBy]
    · simp [hurl, ih, List.filterMap_cons, declaredBy]

theorem collectTxs_eq_foldl {EDS DAH : Type} (a : App EDS DAH) (cs : List Bytes)
    (txs : List Bytes) :
    collectTxs a cs txs = (declarations a txs).foldl insertCommitment cs := by
  induction txs generalizing cs with
  | nil => rfl
  | cons rawTx rest ih =>
    rw [collectTxs, declarations, List.foldl_append, txDeclarations]
    cases hd : a.TxDecoder rawTx with
    | error err => simp [ih]
    | ok tx => simp [ih, collectMsgs_eq_foldl]

theorem extractCommitments_eq_foldl {EDS DAH : Type} (a : App EDS DAH) (txs : List Bytes) :
    extractCommitments a txs = (declarations a txs).foldl insertCommitment [] :=
  collectTxs_eq_foldl a [] txs

theorem mem_insertCommitment (cs : List Bytes) (key c : Bytes) :
    c ∈ insertCommitment cs key ↔ c ∈ cs ∨ c = key := by
  unfold insertCommitment
  by_cases h : key ∈ cs
  · simp only [h, if_true]
    constructor
    · exact Or.inl
    · rintro (hc | rfl)
      · exact hc
      · exact h
  · simp [h]

theorem nodup_insertCommitment (cs : List Bytes) (key : Bytes) (h : cs.Nodup) :
    (insertCommitment cs key).Nodup := by
  unfold insertCommitment
  by_cases hk : key ∈ cs
  · simpa [hk] using h
  · simp only [hk, if_false]
    rw [List.nodup_append]
    refine ⟨h, List.nodup_singleton key, ?_⟩
    intro x hx hx1
    rw [List.mem_singleton] at hx1
    exact hk (hx1 ▸ hx)

theorem mem_foldl_insertCommitment (ds cs : List Bytes) (c : Bytes) :
    c ∈ ds.foldl insertCommitment cs ↔ c ∈ cs ∨ c ∈ ds := by
  induction ds generalizing cs with
  | nil => simp
  | cons d rest ih =>
    rw [List.foldl_cons, ih, mem_insertCommitment, List.mem_cons]
    tauto

theorem nodup_foldl_insertCommitment (ds cs : List Bytes) (h : cs.Nodup) :
    (ds.foldl insertCommitment cs).Nodup := by
  induction ds generalizing cs with
  | nil => exact h
  | cons d rest ih => exact ih _ (nodup_insertCommitment cs d h)

theorem foldl_insertCommitment_of_forall_mem (ds cs : List Bytes) (h : ∀ d ∈ ds, d ∈ cs) :
    ds.foldl insertCommitment cs = cs := by
  induction ds with
  | nil => rfl
  | cons d rest ih =>
    have hd : d ∈ cs := h d (List.mem_cons_self d rest)
    rw [List.foldl_cons]
    simp only [insertCommitment, hd, if_true]
    exact ih fun x hx => h x (List.mem_cons_of_mem d hx)

theorem mem_extractCommitments {EDS DAH : Type} (a : App EDS DAH) (txs : List Bytes)
    (c : Bytes) : c ∈ extractCommitments a txs ↔ c ∈ declarations a txs := by
  rw [extractCommitments_eq_foldl, mem_foldl_insertCommitment]
  simp

theorem nodup_extractCommitments {EDS DAH : Type} (a : App EDS DAH) (txs : List Bytes) :
    (extractCommitments a txs).Nodup := by
  rw [extractCommitments_eq_foldl]
  exact nodup_foldl_insertCommitment _ _ List.nodup_nil

theorem length_extractCommitments {EDS DAH : Type} (a : App EDS DAH) (txs : List Bytes) :
    (extractCommitments a txs).length = (declarations a txs).toFinset.card := by
  rw [← List.toFinset_card_of_nodup (nodup_extractCommitments a txs)]
  congr 1
  ext c
  simp [mem_extractCommitments]

/-! ## Acceptance -/

/-- C1. Soundness of ACCEPT: when ProcessProposal returns ACCEPT, the distinct declared
commitments, which are the entries of the extracted set, are as many as the bulk messages,
every bulk message has a commitment that CreateCommitment derives successfully and that is
in the extracted set, WriteSquare succeeds, ExtendShares succeeds on its square, and the
hash of the data availability header of the extended square equals Header.DataHash. -/
theorem ProcessProposal_accept_sound {EDS DAH : Type} (a : App EDS DAH)
    (req : RequestProcessProposal) (hacc : (ProcessProposal a req).outcome = accept) :
    (declarations a req.BlockData.Txs).toFinset.card =
        req.BlockData.Messages.MessagesList.length ∧
    (extractCommitments a req.BlockData.Txs).length =
        req.BlockData.Messages.MessagesList.length ∧
    (∀ msg ∈ req.BlockData.Messages.MessagesList, ∃ commit,
        a.CreateCommitment req.BlockData.OriginalSquareSize msg.NamespaceId msg.Data
          = .ok commit ∧
        commit ∈ extractCommitments a req.BlockData.Txs) ∧
    ∃ dataSquare,
      a.WriteSquare req.BlockData.OriginalSquareSize req.BlockData = .ok dataSquare ∧
      ∃ eds, a.ExtendShares req.BlockData.OriginalSquareSize dataSquare = .ok eds ∧
        a.Hash (a.NewDataAvailabilityHeader eds) = req.Header.DataHash := by
  obtain ⟨h, hc, hrest⟩ := (ProcessProposal_outcome_accept_iff a req).1 hacc
  exact ⟨(length_extractCommitments a _).symm.trans h, h,
    (checkMessages_eq_none_iff a _ _ _).1 hc, hrest⟩

/-- The soundness theorem applied to an accepted block of `demoApp`. -/
theorem ProcessProposal_accept_sound_witness :
    (ProcessProposal demoApp demoAccepted).outcome = accept ∧
    ((declarations demoApp demoAccepted.BlockData.Txs).toFinset.card =
        demoAccepted.BlockData.Messages.MessagesList.length ∧
    (extractCommitments demoApp demoAccepted.BlockData.Txs).length =
        demoAccepted.BlockData.Messages.MessagesList.length ∧
    (∀ msg ∈ demoAccepted.BlockData.Messages.MessagesList, ∃ commit,
        demoApp.CreateCommitment demoAccepted.BlockData.OriginalSquareSize
          msg.NamespaceId msg.Data = .ok commit ∧
        commit ∈ extractCommitments demoApp demoAccepted.BlockData.Txs) ∧
    ∃ dataSquare,
      demoApp.WriteSquare demoAccepted.BlockData.OriginalSquareSize demoAccepted.BlockData
        = .ok dataSquare ∧
      ∃ eds, demoApp.ExtendShares demoAccepted.BlockData.OriginalSquareSize dataSquare
          = .ok eds ∧
        demoApp.Hash (demoApp.NewDataAvailabilityHeader eds)
          = demoAccepted.Header.DataHash) :=
  ⟨by decide, ProcessProposal_accept_sound demoApp demoAccepted (by decide)⟩

/-- C2. Completeness of ACCEPT: when the extracted commitments are as many as the bulk
messages, every bulk message's commitment is derived successfully and is in the extracted
set, WriteSquare and ExtendShares succeed and the derived root equals Header.DataHash,
ProcessProposal returns ACCEPT (and logs nothing); in particular a block without
transactions and without messages whose square is built and extended and whose header
carries the derived root is accepted. -/
theorem ProcessProposal_accept_complete {EDS DAH : Type} (a : App EDS DAH)
    (req : RequestProcessProposal) (dataSquare : List Bytes) (eds : EDS)
    (hw : a.WriteSquare req.BlockData.OriginalSquareSize req.BlockData = .ok dataSquare)
    (he : a.ExtendShares req.BlockData.OriginalSquareSize dataSquare = .ok eds)
    (hr : a.Hash (a.NewDataAvailabilityHeader eds) = req.Header.DataHash) :
    ((extractCommitments a req.BlockData.Txs).length =
          req.BlockData.Messages.MessagesList.length →
      (∀ msg ∈ req.BlockData.Messages.MessagesList, ∃ commit,
          a.CreateCommitment req.BlockData.OriginalSquareSize msg.NamespaceId msg.Data
            = .ok commit ∧
          commit ∈ extractCommitments a req.BlockData.Txs) →
      ProcessProposal a req = ⟨[], accept⟩) ∧
    (req.BlockData.Txs = [] → req.BlockData.Messages.MessagesList = [] →
      ProcessProposal a req = ⟨[], accept⟩) := by
  have main : (extractCommitments a req.BlockData.Txs).length =
          req.BlockData.Messages.MessagesList.length →
      (∀ msg ∈ req.BlockData.Messages.MessagesList, ∃ commit,
          a.CreateCommitment req.BlockData.OriginalSquareSize msg.NamespaceId msg.Data
            = .ok commit ∧
          commit ∈ extractCommitments a req.BlockData.Txs) →
      ProcessProposal a req = ⟨[], accept⟩ := fun h hm =>
    ProcessProposal_of_root_eq a req dataSquare eds h
      ((checkMessages_eq_none_iff a _ _ _).2 hm) hw he hr
  refine ⟨main, fun htx hmsgs => main ?_ ?_⟩
  · rw [htx, hmsgs]; rfl
  · rw [hmsgs]; intro msg hmem; cases hmem

/-- The completeness theorem applied to an accepted block with one message and to the
empty block of `demoApp`. -/
theorem ProcessProposal_accept_complete_witness :
    ProcessProposal demoApp demoAccepted = ⟨[], accept⟩ ∧
    ProcessProposal demoApp demoEmpty = ⟨[], accept⟩ :=
  ⟨(ProcessProposal_accept_complete demoApp demoAccepted
      [[1, 7, 5, 6], [5, 6, 9], [], []]
      [[1, 7, 5, 6], [5, 6, 9], [], [], [1, 7, 5, 6], [5, 6, 9], [], []]
      rfl rfl (by decide)).1 (by decide)
      (fun msg hmem => by
        obtain rfl : msg = ⟨[7], [5, 6, 9]⟩ := by simpa [demoAccepted, mkReq] using hmem
        exact ⟨[7, 5, 6], rfl, by decide⟩),
   (ProcessProposal_accept_complete demoApp demoEmpty [[]] [[], []]
      rfl rfl (by decide)).2 rfl rfl⟩

/-! ## Rejection and halting -/

/-- C3. Cardinality rejection: when the number of distinct extracted commitments differs
from the number of bulk messages, ProcessProposal returns REJECT, whatever the message
contents, the square size, the header and the collaborators are. -/
theorem ProcessProposal_cardinality_reject {EDS DAH : Type} (a : App EDS DAH)
    (req : RequestProcessProposal)
    (h : (extractCommitments a req.BlockData.Txs).length ≠
      req.BlockData.Messages.MessagesList.length) :
    (ProcessProposal a req).outcome = reject := by
  rw [ProcessProposal_of_length_ne a req h]

/-- The cardinality theorem applied to a block with one declaration and no message, and to
a block with one message and no declaration. -/
theorem ProcessProposal_cardinality_reject_witness :
    ((extractCommitments demoApp [[1, 7, 5, 6]]).length = 1 ∧
      (ProcessProposal demoApp (mkReq [[1, 7, 5, 6]] [] 2 [4, 0, 0, 0, 4, 0, 0, 0])).outcome
        = reject) ∧
    ((extractCommitments demoApp []).length = 0 ∧
      (ProcessProposal demoApp (mkReq [] [⟨[7], [5, 6, 9]⟩] 2 [3, 0, 0, 0, 3, 0, 0, 0])).outcome
        = reject) :=
  ⟨⟨by decide, ProcessProposal_cardinality_reject demoApp
      (mkReq [[1, 7, 5, 6]] [] 2 [4, 0, 0, 0, 4, 0, 0, 0]) (by decide)⟩,
   ⟨by decide, ProcessProposal_cardinality_reject demoApp
      (mkReq [] [⟨[7], [5, 6, 9]⟩] 2 [3, 0, 0, 0, 3, 0, 0, 0]) (by decide)⟩⟩

/-- C4. Evaluation at a block with an orphan declaration: the two declarations `[7, 5, 6]`
and `[9, 9, 9]` are extracted, the block holds the same message twice, both copies derive
the commitment `[7, 5, 6]`, no message derives `[9, 9, 9]`, and ProcessProposal returns
ACCEPT: the extracted commitments and the bulk messages are not in one-to-one
correspondence. -/
theorem ProcessProposal_accepts_orphan_declaration :
    ProcessProposal demoApp demoOrphan = ⟨[], accept⟩ ∧
    extractCommitments demoApp demoOrphan.BlockData.Txs = [[7, 5, 6], [9, 9, 9]] ∧
    (∀ msg ∈ demoOrphan.BlockData.Messages.MessagesList,
      demoApp.CreateCommitment demoOrphan.BlockData.OriginalSquareSize
        msg.NamespaceId msg.Data = .ok [7, 5, 6]) ∧
    ¬ ∃ msg ∈ demoOrphan.BlockData.Messages.MessagesList,
      demoApp.CreateCommitment demoOrphan.BlockData.OriginalSquareSize
        msg.NamespaceId msg.Data = .ok [9, 9, 9] := by
  have hall : ∀ msg ∈ demoOrphan.BlockData.Messages.MessagesList,
      demoApp.CreateCommitment demoOrphan.BlockData.OriginalSquareSize
        msg.NamespaceId msg.Data = .ok [7, 5, 6] := by
    intro msg hmem
    have hmsg : msg = ⟨[7], [5, 6, 1]⟩ := by simpa [demoOrphan, mkReq] using hmem
    subst hmsg
    rfl
  refine ⟨by decide, by decide, hall, ?_⟩
  rintro ⟨msg, hmem, hc⟩
  rw [hall msg hmem] at hc
  exact absurd (Except.ok.inj hc) (by decide)

theorem flipBitOfByte_ne (b : Byte) (bit : Nat) (hbit : bit < 8) : flipBitOfByte b bit ≠ b := by
  intro h
  have hlt : b.val ^^^ 2 ^ bit < 2 ^ 8 :=
    Nat.xor_lt_two_pow b.isLt
      (lt_of_lt_of_le (Nat.pow_lt_pow_right (by norm_num) hbit) le_rfl)
  have hval : (flipBitOfByte b bit).val = b.val ^^^ 2 ^ bit := by
    simp only [flipBitOfByte, Fin.ofNat, Fin.val_mk]
    exact Nat.mod_eq_of_lt hlt
  rw [h] at hval
  have hzero : 2 ^ bit = 0 := by
    have h2 := congrArg (fun x => b.val ^^^ x) hval
    simp only [Nat.xor_self, Nat.xor_cancel_left] at h2
    exact h2.symm
  exact absurd hzero (by positivity)

theorem flipBit_ne (data : Bytes) (i bit : Nat) (hi : i < data.length) (hbit : bit < 8) :
    flipBit data i bit ≠ data := by
  induction data generalizing i with
  | nil => simp at hi
  | cons b rest ih =>
    cases i with
    | zero =>
      intro h
      simp only [flipBit, List.modify_zero_cons, List.cons.injEq] at h
      exact flipBitOfByte_ne b bit hbit h.1
    | succ i =>
      intro h
      simp only [flipBit, List.modify_succ_cons, List.cons.injEq, true_and] at h
      exact ih i (by simpa using hi) h

/-- C5. Header tampering rejects: when ProcessProposal returns ACCEPT on a request,
replacing Header.DataHash by any different byte string, the block data unchanged, makes it
return REJECT (logging the root mismatch); in particular flipping one bit of one byte of
Header.DataHash does. -/
theorem ProcessProposal_header_tamper_reject {EDS DAH : Type} (a : App EDS DAH)
    (req : RequestProcessProposal) (hacc : (ProcessProposal a req).outcome = accept) :
    (∀ dataHash : Bytes, dataHash ≠ req.Header.DataHash →
      (withDataHash req dataHash).BlockData = req.BlockData ∧
      (ProcessProposal a (withDataHash req dataHash)).outcome = reject ∧
      (ProcessProposal a (withDataHash req dataHash)).log = [logRootMismatch]) ∧
    (∀ i bit : Nat, i < req.Header.DataHash.length → bit < 8 →
      (ProcessProposal a (withDataHash req (flipBit req.Header.DataHash i bit))).outcome
        = reject) := by
  obtain ⟨h, hc, dataSquare, hw, eds, he, hr⟩ :=
    (ProcessProposal_outcome_accept_iff a req).1 hacc
  have main : ∀ dataHash : Bytes, dataHash ≠ req.Header.DataHash →
      ProcessProposal a (withDataHash req dataHash) = ⟨[logRootMismatch], reject⟩ := by
    intro dataHash hne
    refine ProcessProposal_of_root_ne a (withDataHash req dataHash) dataSquare eds h hc hw he ?_
    rw [hr]
    exact fun heq => hne heq.symm
  refine ⟨fun dataHash hne => ⟨rfl, ?_, ?_⟩, fun i bit hi hbit => ?_⟩
  · rw [main dataHash hne]
  · rw [main dataHash hne]
  · rw [main _ (flipBit_ne _ i bit hi hbit)]

/-- The tampering theorem applied to an accepted block of `demoApp`: another root, and the
lowest bit of the second byte of the root flipped. -/
theorem ProcessProposal_header_tamper_reject_witness :
    (ProcessProposal demoApp demoAccepted).outcome = accept ∧
    (ProcessProposal demoApp (withDataHash demoAccepted [1, 2, 3])).outcome = reject ∧
    flipBit demoAccepted.Header.DataHash 1 0 = [4, 2, 0, 0, 4, 3, 0, 0] ∧
    (ProcessProposal demoApp
      (withDataHash demoAccepted (flipBit demoAccepted.Header.DataHash 1 0))).outcome
        = reject :=
  ⟨by decide,
   ((ProcessProposal_header_tamper_reject demoApp demoAccepted (by decide)).1 [1, 2, 3]
      (by decide)).2.1,
   by decide,
   (ProcessProposal_header_tamper_reject demoApp demoAccepted (by decide)).2 1 0
      (by decide) (by decide)⟩

/-- C6. Layout overflow halts: ProcessProposal panics with an error exactly when the
cardinality check and the per-message commitment check pass and WriteSquare returns that
error; it then returns no verdict and logs nothing; and every other failure maps to REJECT:
the outcome is REJECT exactly when the cardinality check fails, or some bulk message has no
derivable declared commitment, or the square is built and either ExtendShares fails on it
or the root derived from it differs from Header.DataHash. -/
theorem ProcessProposal_panic_iff_layout_overflow {EDS DAH : Type} (a : App EDS DAH)
    (req : RequestProcessProposal) :
    (∀ err : String,
      (ProcessProposal a req).outcome = .panicked err ↔
        ((extractCommitments a req.BlockData.Txs).length =
            req.BlockData.Messages.MessagesList.length ∧
          (∀ msg ∈ req.BlockData.Messages.MessagesList, ∃ commit,
            a.CreateCommitment req.BlockData.OriginalSquareSize msg.NamespaceId msg.Data
              = .ok commit ∧
            commit ∈ extractCommitments a req.BlockData.Txs) ∧
          a.WriteSquare req.BlockData.OriginalSquareSize req.BlockData = .error err)) ∧
    (∀ err : String, (ProcessProposal a req).outcome = .panicked err →
      ProcessProposal a req = ⟨[], .panicked err⟩ ∧
      ∀ resp, (ProcessProposal a req).outcome ≠ .returned resp) ∧
    ((∀ err : String, (ProcessProposal a req).outcome ≠ .panicked err) →
      (ProcessProposal a req).outcome ≠ accept →
      (ProcessProposal a req).outcome = reject) ∧
    ((ProcessProposal a req).outcome = reject ↔
      ((extractCommitments a req.BlockData.Txs).length ≠
          req.BlockData.Messages.MessagesList.length ∨
        (∃ msg ∈ req.BlockData.Messages.MessagesList, ∀ commit,
          a.CreateCommitment req.BlockData.OriginalSquareSize msg.NamespaceId msg.Data
            = .ok commit → commit ∉ extractCommitments a req.BlockData.Txs) ∨
        ∃ dataSquare,
          a.WriteSquare req.BlockData.OriginalSquareSize req.BlockData = .ok dataSquare ∧
          ((∃ err, a.ExtendShares req.BlockData.OriginalSquareSize dataSquare
              = .error err) ∨
            ∃ eds, a.ExtendShares req.BlockData.OriginalSquareSize dataSquare = .ok eds ∧
              a.Hash (a.NewDataAvailabilityHeader eds) ≠ req.Header.DataHash))) := by
  have hiff : ∀ err : String,
      (ProcessProposal a req).outcome = .panicked err ↔
        ((extractCommitments a req.BlockData.Txs).length =
            req.BlockData.Messages.MessagesList.length ∧
          checkMessages a (squareSizeOf req) (extractCommitments a req.BlockData.Txs)
            (messagesOf req) = none ∧
          a.WriteSquare req.BlockData.OriginalSquareSize req.BlockData = .error err) := by
    intro err
    constructor
    · intro hp
      rcases ProcessProposal_cases a req with ⟨_, hrun⟩ | ⟨h, hrest⟩
      · rw [hrun] at hp; simp [reject] at hp
      · refine ⟨h, ?_⟩
        rcases hrest with ⟨entry, _, hrun⟩ | ⟨hc, hrest⟩
        · rw [hrun] at hp; simp [reject] at hp
        · refine ⟨hc, ?_⟩
          rcases hrest with ⟨err1, hw, hrun⟩ | ⟨dataSquare, _, hrest⟩
          · rw [hrun] at hp
            obtain rfl : err1 = err := by simpa using hp
            exact hw
          · rcases hrest with ⟨err1, _, hrun⟩ | ⟨eds, _, ⟨_, hrun⟩ | ⟨_, hrun⟩⟩
            · rw [hrun] at hp; simp [reject] at hp
            · rw [hrun] at hp; simp [reject] at hp
            · rw [hrun] at hp; simp [accept] at hp
    · rintro ⟨h, hc, hw⟩
      rw [ProcessProposal_of_write_error a req err h hc hw]
  refine ⟨fun err => ?_, fun err hp => ?_, fun hnp hna => ?_,
    ProcessProposal_outcome_reject_iff a req⟩
  · rw [hiff err, checkMessages_eq_none_iff]
  · obtain ⟨h, hc, hw⟩ := (hiff err).1 hp
    refine ⟨ProcessProposal_of_write_error a req err h hc hw, fun resp hr => ?_⟩
    rw [hp] at hr
    exact Outcome.noConfusion hr
  · rcases outcome_trichotomy (ProcessProposal a req).outcome with ha | hr | ⟨err, hp⟩
    · exact absurd ha hna
    · exact hr
    · exact absurd hp (hnp err)

/-- The halting theorem applied to a block of `demoApp` that does not fit its square: the
declaration and the message match, WriteSquare fails, the call panics with its error; and
to a block on which the coder of `demoStrictApp` fails, which is rejected. -/
theorem ProcessProposal_panic_iff_layout_overflow_witness :
    demoApp.WriteSquare demoOverflow.BlockData.OriginalSquareSize demoOverflow.BlockData
      = .error "square too small" ∧
    (ProcessProposal demoApp demoOverflow).outcome = .panicked "square too small" ∧
    (ProcessProposal demoStrictApp demoAccepted).outcome = reject :=
  ⟨rfl,
   ((ProcessProposal_panic_iff_layout_overflow demoApp demoOverflow).1 "square too small").2
     ⟨by decide,
      fun msg hmem => by
        obtain rfl : msg = ⟨[7], [5, 6, 9]⟩ := by simpa [demoOverflow, mkReq] using hmem
        exact ⟨[7, 5, 6], rfl, by decide⟩,
      rfl⟩,
   (ProcessProposal_panic_iff_layout_overflow demoStrictApp demoAccepted).2.2.2.2
     (Or.inr (Or.inr ⟨[[1, 7, 5, 6], [5, 6, 9], [], []], rfl,
       Or.inl ⟨"share width", rfl⟩⟩))⟩

/-! ## Duplicate declarations -/

/-- A block whose extracted set is `[c]` and whose only bulk message is `msg`: the call is
not turned down by the cardinality check, and the later stages decide. -/
theorem ProcessProposal_single_declared_message {EDS DAH : Type} (a : App EDS DAH)
    (req : RequestProcessProposal) (c : Bytes) (msg : Message)
    (hset : extractCommitments a req.BlockData.Txs = [c])
    (hone : req.BlockData.Messages.MessagesList = [msg]) :
    ProcessProposal a req ≠ ⟨[], reject⟩ ∧
    (∀ err, a.CreateCommitment req.BlockData.OriginalSquareSize msg.NamespaceId msg.Data
        = .error err →
      ProcessProposal a req = ⟨[logCommitmentFailure err], reject⟩) ∧
    (∀ commit, a.CreateCommitment req.BlockData.OriginalSquareSize msg.NamespaceId msg.Data
        = .ok commit → commit ≠ c →
      ProcessProposal a req = ⟨[logMissingPFM], reject⟩) ∧
    (a.CreateCommitment req.BlockData.OriginalSquareSize msg.NamespaceId msg.Data = .ok c →
      ∀ dataSquare eds,
        a.WriteSquare req.BlockData.OriginalSquareSize req.BlockData = .ok dataSquare →
        a.ExtendShares req.BlockData.OriginalSquareSize dataSquare = .ok eds →
        a.Hash (a.NewDataAvailabilityHeader eds) = req.Header.DataHash →
        ProcessProposal a req = ⟨[], accept⟩) := by
  have hlen : (extractCommitments a req.BlockData.Txs).length = (messagesOf req).length := by
    simp [messagesOf, hset, hone]
  refine ⟨fun hrun => (ProcessProposal_eq_unlogged_reject_iff a req).1 hrun hlen,
    fun err herr => ?_, fun commit hok hne => ?_, fun hok dataSquare eds hw he hr => ?_⟩
  · refine ProcessProposal_of_check_some a req _ hlen ?_
    simp [messagesOf, squareSizeOf, hone, checkMessages, herr]
  · refine ProcessProposal_of_check_some a req _ hlen ?_
    simp [messagesOf, squareSizeOf, hone, hset, checkMessages, hok, hne]
  · refine ProcessProposal_of_root_eq a req dataSquare eds hlen ?_ hw he hr
    simp [messagesOf, squareSizeOf, hone, hset, checkMessages, hok]

/-- C7. Duplicate declarations collapse: the length the cardinality check reads is the
number of distinct declared commitments; when the decodable transactions of a block carry
two or more declarations, all with the commitment `c`, and the block has exactly one bulk
message, the extracted set is exactly `[c]` and ProcessProposal passes the cardinality
check: its run is not the rejection of that check, it is the derivation failure if the
commitment of the message cannot be derived, the missing declaration if a commitment other
than `c` is derived, and ACCEPT if `c` is derived and the square is built, coded and has
the root of the header.  A block with the single declaration `c` and the same message and
square size has the same extracted set, passes the cardinality check as well, and has the
same run whenever the message does not derive `c`. -/
theorem ProcessProposal_duplicate_declarations_collapse {EDS DAH : Type} (a : App EDS DAH)
    (req : RequestProcessProposal) (c : Bytes) (msg : Message)
    (htwo : 2 ≤ (declarations a req.BlockData.Txs).length)
    (hall : ∀ d ∈ declarations a req.BlockData.Txs, d = c)
    (hone : req.BlockData.Messages.MessagesList = [msg]) :
    extractCommitments a req.BlockData.Txs = [c] ∧
    ¬ ((extractCommitments a req.BlockData.Txs).length ≠
        req.BlockData.Messages.MessagesList.length) ∧
    ProcessProposal a req ≠ ⟨[], reject⟩ ∧
    (∀ err, a.CreateCommitment req.BlockData.OriginalSquareSize msg.NamespaceId msg.Data
        = .error err →
      ProcessProposal a req = ⟨[logCommitmentFailure err], reject⟩) ∧
    (∀ commit, a.CreateCommitment req.BlockData.OriginalSquareSize msg.NamespaceId msg.Data
        = .ok commit → commit ≠ c →
      ProcessProposal a req = ⟨[logMissingPFM], reject⟩) ∧
    (a.CreateCommitment req.BlockData.OriginalSquareSize msg.NamespaceId msg.Data = .ok c →
      ∀ dataSquare eds,
        a.WriteSquare req.BlockData.OriginalSquareSize req.BlockData = .ok dataSquare →
        a.ExtendShares req.BlockData.OriginalSquareSize dataSquare = .ok eds →
        a.Hash (a.NewDataAvailabilityHeader eds) = req.Header.DataHash →
        ProcessProposal a req = ⟨[], accept⟩) ∧
    (∀ single : RequestProcessProposal,
      declarations a single.BlockData.Txs = [c] →
      single.BlockData.Messages = req.BlockData.Messages →
      single.BlockData.OriginalSquareSize = req.BlockData.OriginalSquareSize →
      extractCommitments a single.BlockData.Txs = extractCommitments a req.BlockData.Txs ∧
      ProcessProposal a single ≠ ⟨[], reject⟩ ∧
      ((∀ commit, a.CreateCommitment req.BlockData.OriginalSquareSize msg.NamespaceId
          msg.Data = .ok commit → commit ≠ c) →
        ProcessProposal a single = ProcessProposal a req)) ∧
    (∀ txs : List Bytes,
      (extractCommitments a txs).length = (declarations a txs).toFinset.card) := by
  have hset : extractCommitments a req.BlockData.Txs = [c] := by
    rw [extractCommitments_eq_foldl]
    cases hd : declarations a req.BlockData.Txs with
    | nil => rw [hd] at htwo; simp at htwo
    | cons d rest =>
      rw [hd] at hall
      obtain rfl : d = c := hall d (List.mem_cons_self d rest)
      have hfirst : insertCommitment [] d = [d] := rfl
      rw [List.foldl_cons, hfirst]
      refine foldl_insertCommitment_of_forall_mem rest [d] fun x hx => ?_
      rw [hall x (List.mem_cons_of_mem d hx)]
      exact List.mem_singleton_self d
  obtain ⟨hpass, hderive, hmissing, haccept⟩ :=
    ProcessProposal_single_declared_message a req c msg hset hone
  refine ⟨hset, ?_, hpass, hderive, hmissing, haccept, fun single hdecl hmsgs hsize => ?_,
    length_extractCommitments a⟩
  · rw [hset, hone]; simp
  · have hset1 : extractCommitments a single.BlockData.Txs = [c] := by
      rw [extractCommitments_eq_foldl, hdecl]; rfl
    have hone1 : single.BlockData.Messages.MessagesList = [msg] := by rw [hmsgs, hone]
    obtain ⟨hpass1, hderive1, hmissing1, _⟩ :=
      ProcessProposal_single_declared_message a single c msg hset1 hone1
    refine ⟨by rw [hset1, hset], hpass1, fun hno => ?_⟩
    rw [hsize] at hderive1 hmissing1
    cases hc : a.CreateCommitment req.BlockData.OriginalSquareSize msg.NamespaceId
        msg.Data with
    | error err => rw [hderive1 err hc, hderive err hc]
    | ok commit => rw [hmissing1 commit hc (hno commit hc), hmissing commit hc (hno commit hc)]

/-- The collapse theorem applied to a block of `demoApp` whose only transaction declares
`[7, 5, 6]` twice and whose only message derives `[7, 5, 6]`: it is accepted, as is the
block with the declaration made once. -/
theorem ProcessProposal_duplicate_declarations_collapse_witness :
    declarations demoApp demoDuplicate.BlockData.Txs = [[7, 5, 6], [7, 5, 6]] ∧
    extractCommitments demoApp demoDuplicate.BlockData.Txs = [[7, 5, 6]] ∧
    ProcessProposal demoApp demoDuplicate = ⟨[], accept⟩ ∧
    declarations demoApp demoAccepted.BlockData.Txs = [[7, 5, 6]] ∧
    ProcessProposal demoApp demoAccepted ≠ ⟨[], reject⟩ :=
  ⟨by decide,
   (ProcessProposal_duplicate_declarations_collapse demoApp demoDuplicate [7, 5, 6]
      ⟨[7], [5, 6, 9]⟩ (by decide) (by decide) rfl).1,
   (ProcessProposal_duplicate_declarations_collapse demoApp demoDuplicate [7, 5, 6]
      ⟨[7], [5, 6, 9]⟩ (by decide) (by decide) rfl).2.2.2.2.2.1 rfl
      [[2, 7, 5, 6], [5, 6, 9], [], []]
      [[2, 7, 5, 6], [5, 6, 9], [], [], [2, 7, 5, 6], [5, 6, 9], [], []] rfl rfl (by decide),
   by decide,
   ((ProcessProposal_duplicate_declarations_collapse demoApp demoDuplicate [7, 5, 6]
      ⟨[7], [5, 6, 9]⟩ (by decide) (by decide) rfl).2.2.2.2.2.2.1 demoAccepted
      (by decide) rfl rfl).2.1⟩

/-! ## Changed messages and missing declarations -/

theorem ProcessProposal_reject_of_unmatched {EDS DAH : Type} (a : App EDS DAH)
    (req : RequestProcessProposal) (msg : Message) (hmem : msg ∈ messagesOf req)
    (hno : ∀ commit, a.CreateCommitment (squareSizeOf req) msg.NamespaceId msg.Data
        = .ok commit → commit ∉ extractCommitments a req.BlockData.Txs) :
    (ProcessProposal a req).outcome = reject := by
  rcases ProcessProposal_cases a req with ⟨_, hrun⟩ | ⟨_, ⟨entry, _, hrun⟩ | ⟨hc, _⟩⟩
  · rw [hrun]
  · rw [hrun]
  · obtain ⟨commit, hok, hin⟩ := (checkMessages_eq_none_iff a _ _ _).1 hc msg hmem
    exact absurd hin (hno commit hok)

theorem mem_modify_of_getElem_some {α : Type} (f : α → α) (l : List α) (i : Nat) (x : α)
    (h : l[i]? = some x) : f x ∈ l.modify f i := by
  induction l generalizing i with
  | nil => simp at h
  | cons y rest ih =>
    cases i with
    | zero =>
      obtain rfl : y = x := by simpa using h
      simp
    | succ i =>
      rw [List.modify_succ_cons]
      exact List.mem_cons_of_mem y (ih i (by simpa using h))

theorem mem_modify_cases {α : Type} (f : α → α) (l : List α) (i : Nat) (y : α)
    (h : y ∈ l.modify f i) : y ∈ l ∨ ∃ x, l[i]? = some x ∧ y = f x := by
  induction l generalizing i with
  | nil => simp at h
  | cons z rest ih =>
    cases i with
    | zero =>
      rw [List.modify_zero_cons, List.mem_cons] at h
      rcases h with rfl | h
      · exact Or.inr ⟨z, by simp, rfl⟩
      · exact Or.inl (List.mem_cons_of_mem z h)
    | succ i =>
      rw [List.modify_succ_cons, List.mem_cons] at h
      rcases h with rfl | h
      · exact Or.inl (List.mem_cons_self y rest)
      · rcases ih i h with hmem | ⟨x, hx, rfl⟩
        · exact Or.inl (List.mem_cons_of_mem z hmem)
        · exact Or.inr ⟨x, by simpa using hx, rfl⟩

theorem map_modify_of_invariant {α β : Type} (g : α → β) (f : α → α)
    (hg : ∀ x, g (f x) = g x) (l : List α) (i : Nat) : (l.modify f i).map g = l.map g := by
  induction l generalizing i with
  | nil => simp
  | cons y rest ih =>
    cases i with
    | zero => simp [hg]
    | succ i => simp [ih]

theorem sameLayout_withMessageByte (req : RequestProcessProposal) (i j : Nat) (b : Byte) :
    sameLayout req.BlockData (withMessageByte req i j b).BlockData := by
  refine ⟨rfl, rfl, ?_, ?_⟩
  · exact (map_modify_of_invariant Message.NamespaceId
      (fun m : Message => { m with Data := m.Data.set j b }) (fun _ => rfl) _ i).symm
  · exact (map_modify_of_invariant (fun m : Message => m.Data.length)
      (fun m : Message => { m with Data := m.Data.set j b })
      (fun m => List.length_set m.Data j b) _ i).symm

theorem withMessageByte_BlockData_ne (req : RequestProcessProposal) (i j : Nat) (b : Byte)
    (msg : Message) (hmsg : req.BlockData.Messages.MessagesList[i]? = some msg)
    (hj : j < msg.Data.length) (hb : msg.Data[j]? ≠ some b) :
    (withMessageByte req i j b).BlockData ≠ req.BlockData := by
  intro heq
  have h1 : (req.BlockData.Messages.MessagesList.modify
      (fun m : Message => { m with Data := m.Data.set j b }) i)[i]? =
      req.BlockData.Messages.MessagesList[i]? :=
    congrArg (fun d : Data => d.Messages.MessagesList[i]?) heq
  rw [List.getElem?_modify_eq, hmsg] at h1
  have h2 : msg.Data.set j b = msg.Data :=
    congrArg Message.Data (Option.some.inj h1)
  have h3 : (msg.Data.set j b)[j]? = msg.Data[j]? := congrArg (fun d : Bytes => d[j]?) h2
  rw [List.getElem?_set_self hj] at h3
  exact hb h3.symm

/-- C8. Single mismatch rejects: with a root derivation that binds the content of the block
and a square builder whose success is decided by the layout, when ProcessProposal returns
ACCEPT on a request, changing exactly one byte of the data of one bulk message (byte `j` of
message `i` becomes `b`, which it was not), the transactions and the header unchanged, makes
ProcessProposal return REJECT. -/
theorem ProcessProposal_one_byte_change_rejects {EDS DAH : Type} (a : App EDS DAH)
    (req : RequestProcessProposal) (i j : Nat) (b : Byte) (msg : Message)
    (hroot : RootBinding a) (hlayout : LayoutBySize a)
    (hacc : (ProcessProposal a req).outcome = accept)
    (hmsg : req.BlockData.Messages.MessagesList[i]? = some msg)
    (hj : j < msg.Data.length) (hb : msg.Data[j]? ≠ some b) :
    (withMessageByte req i j b).BlockData.Txs = req.BlockData.Txs ∧
    (withMessageByte req i j b).Header = req.Header ∧
    (withMessageByte req i j b).BlockData ≠ req.BlockData ∧
    (ProcessProposal a (withMessageByte req i j b)).outcome = reject := by
  have hne := withMessageByte_BlockData_ne req i j b msg hmsg hj hb
  have hsame := sameLayout_withMessageByte req i j b
  refine ⟨rfl, rfl, hne, ?_⟩
  obtain ⟨-, -, sq, hw, eds, he, hr⟩ := (ProcessProposal_outcome_accept_iff a req).1 hacc
  obtain ⟨sq2, hw2⟩ := hlayout req.BlockData (withMessageByte req i j b).BlockData sq hsame hw
  rcases ProcessProposal_cases a (withMessageByte req i j b) with
    ⟨_, hrun⟩ | ⟨_, ⟨entry, _, hrun⟩ | ⟨_, ⟨err, hw3, _⟩ | ⟨sq3, hw3, hrest⟩⟩⟩
  · rw [hrun]
  · rw [hrun]
  · have hw4 : a.WriteSquare (withMessageByte req i j b).BlockData.OriginalSquareSize
        (withMessageByte req i j b).BlockData = .error err := hw3
    rw [hw2] at hw4
    exact Except.noConfusion hw4
  · rcases hrest with ⟨err, _, hrun⟩ | ⟨eds3, he3, ⟨_, hrun⟩ | ⟨hr3, _⟩⟩
    · rw [hrun]
    · rw [hrun]
    · exfalso
      refine hne (hroot req.BlockData (withMessageByte req i j b).BlockData sq sq3 eds eds3
        hsame hw hw3 he he3 ?_).symm
      rw [hr, hr3]
      rfl

/-! ### A binding application -/

theorem demoConcat_inj (l1 l2 : List Bytes)
    (hlen : l1.map List.length = l2.map List.length) (h : demoConcat l1 = demoConcat l2) :
    l1 = l2 := by
  induction l1 generalizing l2 with
  | nil =>
    cases l2 with
    | nil => rfl
    | cons t rest2 => simp at hlen
  | cons s rest ih =>
    cases l2 with
    | nil => simp at hlen
    | cons t rest2 =>
      simp only [List.map_cons, List.cons.injEq] at hlen
      simp only [demoConcat] at h
      obtain ⟨hs, hr⟩ := List.append_inj h hlen.1
      rw [hs, ih rest2 hlen.2 hr]

theorem messages_eq_of_maps (m1 m2 : List Message)
    (hns : m1.map Message.NamespaceId = m2.map Message.NamespaceId)
    (hdata : m1.map Message.Data = m2.map Message.Data) : m1 = m2 := by
  induction m1 generalizing m2 with
  | nil =>
    cases m2 with
    | nil => rfl
    | cons y rest2 => simp at hns
  | cons x rest ih =>
    cases m2 with
    | nil => simp at hns
    | cons y rest2 =>
      simp only [List.map_cons, List.cons.injEq] at hns hdata
      have hxy : x = y := by
        cases x; cases y
        simp only [Message.mk.injEq]
        exact ⟨hns.1, hdata.1⟩
      rw [hxy, ih rest2 hns.2 hdata.2]

theorem demoWriteSquare_ok (k : Nat) (d : Data) (sq : List Bytes)
    (h : demoWriteSquare k d = .ok sq) :
    ¬ k * k < (d.Txs ++ d.Messages.MessagesList.map Message.Data).length ∧
    sq = (d.Txs ++ d.Messages.MessagesList.map Message.Data) ++
      List.replicate (k * k - (d.Txs ++ d.Messages.MessagesList.map Message.Data).length) [] := by
  unfold demoWriteSquare at h
  dsimp only at h
  by_cases hk : k * k < (d.Txs ++ d.Messages.MessagesList.map Message.Data).length
  · rw [if_pos hk] at h
    exact Except.noConfusion h
  · rw [if_neg hk] at h
    exact ⟨hk, (Except.ok.inj h).symm⟩

theorem demoExtendShares_ok (k : Nat) (sq eds : List Bytes)
    (h : demoExtendShares k sq = .ok eds) : eds = sq ++ sq := by
  unfold demoExtendShares at h
  by_cases hk : k = 0 ∨ sq.length ≠ k * k
  · rw [if_pos hk] at h
    exact Except.noConfusion h
  · rw [if_neg hk] at h
    exact (Except.ok.inj h).symm

theorem map_length_append_of_eq (s1 s2 t : List Bytes)
    (h : s1.map List.length = s2.map List.length) :
    (s1 ++ t).map List.length = (s2 ++ t).map List.length := by
  rw [List.map_append, List.map_append, h]

theorem sameLayout_shares (d1 d2 : Data) (h : sameLayout d1 d2) :
    (d1.Txs ++ d1.Messages.MessagesList.map Message.Data).map List.length =
      (d2.Txs ++ d2.Messages.MessagesList.map Message.Data).map List.length := by
  obtain ⟨htx, -, -, hdl⟩ := h
  have hmap : ∀ ms : List Message,
      (ms.map Message.Data).map List.length = ms.map (fun m => m.Data.length) := by
    intro ms
    rw [List.map_map]
    rfl
  rw [List.map_append, List.map_append, hmap, hmap, htx, hdl]

/-- The square builder of `demoBindingApp` succeeds or fails with the layout. -/
theorem demoBindingApp_LayoutBySize : LayoutBySize demoBindingApp := by
  intro d1 d2 sq1 hsame hw
  obtain ⟨hfit, -⟩ := demoWriteSquare_ok d1.OriginalSquareSize d1 sq1 hw
  have hlen := congrArg List.length (sameLayout_shares d1 d2 hsame)
  rw [List.length_map, List.length_map] at hlen
  have hk : d1.OriginalSquareSize = d2.OriginalSquareSize := hsame.2.1
  rw [hk, hlen] at hfit
  refine ⟨(d2.Txs ++ d2.Messages.MessagesList.map Message.Data) ++
    List.replicate (d2.OriginalSquareSize * d2.OriginalSquareSize -
      (d2.Txs ++ d2.Messages.MessagesList.map Message.Data).length) [], ?_⟩
  show demoWriteSquare d2.OriginalSquareSize d2 = _
  unfold demoWriteSquare
  dsimp only
  rw [if_neg hfit]

/-- The root of `demoBindingApp` binds the content of the block. -/
theorem demoBindingApp_RootBinding : RootBinding demoBindingApp := by
  intro d1 d2 sq1 sq2 eds1 eds2 hsame hw1 hw2 he1 he2 hroot
  obtain ⟨-, hsq1⟩ := demoWriteSquare_ok d1.OriginalSquareSize d1 sq1 hw1
  obtain ⟨-, hsq2⟩ := demoWriteSquare_ok d2.OriginalSquareSize d2 sq2 hw2
  have heds1 := demoExtendShares_ok d1.OriginalSquareSize sq1 eds1 he1
  have heds2 := demoExtendShares_ok d2.OriginalSquareSize sq2 eds2 he2
  have hshape := sameLayout_shares d1 d2 hsame
  have hlen := congrArg List.length hshape
  rw [List.length_map, List.length_map] at hlen
  have hk : d1.OriginalSquareSize = d2.OriginalSquareSize := hsame.2.1
  have hsqshape : sq1.map List.length = sq2.map List.length := by
    rw [hsq1, hsq2, hk, hlen]
    exact map_length_append_of_eq _ _ _ hshape
  have hcat : demoConcat eds1 = demoConcat eds2 := hroot
  have hedseq : eds1 = eds2 := by
    refine demoConcat_inj eds1 eds2 ?_ hcat
    rw [heds1, heds2, List.map_append, List.map_append, hsqshape]
  have hsqeq : sq1 = sq2 := by
    rw [heds1, heds2] at hedseq
    exact (List.append_inj hedseq (by
      have := congrArg List.length hsqshape
      rwa [List.length_map, List.length_map] at this)).1
  have hshares : d1.Txs ++ d1.Messages.MessagesList.map Message.Data =
      d2.Txs ++ d2.Messages.MessagesList.map Message.Data := by
    rw [hsq1, hsq2] at hsqeq
    exact (List.append_inj hsqeq hlen).1
  have htx : d1.Txs = d2.Txs := hsame.1
  have hdata : d1.Messages.MessagesList.map Message.Data =
      d2.Messages.MessagesList.map Message.Data := by
    rw [htx] at hshares
    exact List.append_cancel_left hshares
  have hmsgs := messages_eq_of_maps _ _ hsame.2.2.1 hdata
  cases d1 with
  | mk txs1 ms1 k1 =>
    cases d2 with
    | mk txs2 ms2 k2 =>
      cases ms1 with
      | mk l1 =>
        cases ms2 with
        | mk l2 =>
          simp only [Data.mk.injEq, Messages.mk.injEq]
          exact ⟨htx, hmsgs, hk⟩

/-- The root of `demoApp`, which only lists share lengths, does not bind the content: two
blocks that differ in one byte of a message have the same root. -/
theorem demoApp_not_RootBinding : ¬ RootBinding demoApp := by
  intro hroot
  have h := hroot demoAccepted.BlockData (withMessageByte demoAccepted 0 2 8).BlockData
    [[1, 7, 5, 6], [5, 6, 9], [], []] [[1, 7, 5, 6], [5, 6, 8], [], []]
    [[1, 7, 5, 6], [5, 6, 9], [], [], [1, 7, 5, 6], [5, 6, 9], [], []]
    [[1, 7, 5, 6], [5, 6, 8], [], [], [1, 7, 5, 6], [5, 6, 8], [], []]
    (sameLayout_withMessageByte demoAccepted 0 2 8) rfl rfl rfl rfl (by decide)
  exact absurd h (by decide)

/-- The single-mismatch theorem applied to an accepted block of `demoBindingApp`: the last
byte of the message goes from 9 to 8; the commitment stays `[7, 5, 6]`, the root changes,
and the block is rejected. -/
theorem ProcessProposal_one_byte_change_rejects_witness :
    (ProcessProposal demoBindingApp demoBound).outcome = accept ∧
    (withMessageByte demoBound 0 2 8).BlockData.Messages.MessagesList
      = [⟨[7], [5, 6, 8]⟩] ∧
    (ProcessProposal demoBindingApp (withMessageByte demoBound 0 2 8)).outcome = reject :=
  ⟨by decide, by decide,
   (ProcessProposal_one_byte_change_rejects demoBindingApp demoBound 0 2 8 ⟨[7], [5, 6, 9]⟩
      demoBindingApp_RootBinding demoBindingApp_LayoutBySize (by decide) (by decide)
      (by decide) (by decide)).2.2.2⟩

/-- C9, counterexample. A block of `demoApp` with exactly one bulk message and no
declaration at all is rejected, and the missing-MsgPayForMessage entry is not what the call
logs: the block is turned down by the cardinality check. -/
theorem ProcessProposal_undeclared_message_other_reason :
    demoUndeclared.BlockData.Messages.MessagesList.length = 1 ∧
    declarations demoApp demoUndeclared.BlockData.Txs = [] ∧
    (ProcessProposal demoApp demoUndeclared).outcome = reject ∧
    logMissingPFM ∉ (ProcessProposal demoApp demoUndeclared).log := by
  decide

/-- C9, amended. A block with exactly one bulk message for which no declaration carries a
commitment derived from it is rejected; the reason logged is the missing-MsgPayForMessage
one exactly when the extracted set has exactly one entry and the commitment of the message
is derived successfully; with one entry and a failing derivation the reason is the
derivation failure, and with no entry or several the block is rejected at the cardinality
check. -/
theorem ProcessProposal_undeclared_single_message {EDS DAH : Type} (a : App EDS DAH)
    (req : RequestProcessProposal) (msg : Message)
    (hone : req.BlockData.Messages.MessagesList = [msg])
    (hno : ∀ commit, a.CreateCommitment req.BlockData.OriginalSquareSize msg.NamespaceId
        msg.Data = .ok commit → commit ∉ extractCommitments a req.BlockData.Txs) :
    (ProcessProposal a req).outcome = reject ∧
    ((ProcessProposal a req).log = [logMissingPFM] ↔
      (extractCommitments a req.BlockData.Txs).length = 1 ∧
      ∃ commit, a.CreateCommitment req.BlockData.OriginalSquareSize msg.NamespaceId
        msg.Data = .ok commit) ∧
    (∀ err, (extractCommitments a req.BlockData.Txs).length = 1 →
      a.CreateCommitment req.BlockData.OriginalSquareSize msg.NamespaceId msg.Data
        = .error err →
      (ProcessProposal a req).log = [logCommitmentFailure err]) := by
  have hlen : (messagesOf req).length = 1 := by simp [messagesOf, hone]
  by_cases h : (extractCommitments a req.BlockData.Txs).length = 1
  · have hl : (extractCommitments a req.BlockData.Txs).length = (messagesOf req).length := by
      rw [h, hlen]
    cases hc : a.CreateCommitment req.BlockData.OriginalSquareSize msg.NamespaceId msg.Data with
    | error err =>
      have hchk : checkMessages a (squareSizeOf req) (extractCommitments a req.BlockData.Txs)
          (messagesOf req) = some (logCommitmentFailure err) := by
        simp [messagesOf, squareSizeOf, hone, checkMessages, hc]
      rw [ProcessProposal_of_check_some a req _ hl hchk]
      refine ⟨rfl, ?_, ?_⟩
      · simp [logCommitmentFailure, logMissingPFM]
      · intro err1 _ herr
        obtain rfl : err = err1 := Except.error.inj herr
        rfl
    | ok commit =>
      have hchk : checkMessages a (squareSizeOf req) (extractCommitments a req.BlockData.Txs)
          (messagesOf req) = some logMissingPFM := by
        simp [messagesOf, squareSizeOf, hone, checkMessages, hc, hno commit hc]
      rw [ProcessProposal_of_check_some a req _ hl hchk]
      refine ⟨rfl, ?_, ?_⟩
      · simp [h]
      · intro err _ herr
        exact Except.noConfusion herr
  · have hl : (extractCommitments a req.BlockData.Txs).length ≠ (messagesOf req).length := by
      rw [hlen]; exact h
    rw [ProcessProposal_of_length_ne a req hl]
    refine ⟨rfl, ?_, fun err h1 _ => absurd h1 h⟩
    simp [h]

/-- The amended theorem applied to a block of `demoApp` with one message and one
declaration of another commitment. -/
theorem ProcessProposal_undeclared_single_message_witness :
    (extractCommitments demoApp demoWrongDeclaration.BlockData.Txs).length = 1 ∧
    (ProcessProposal demoApp demoWrongDeclaration).outcome = reject ∧
    (ProcessProposal demoApp demoWrongDeclaration).log = [logMissingPFM] :=
  ⟨by decide,
   (ProcessProposal_undeclared_single_message demoApp demoWrongDeclaration ⟨[7], [5, 6, 9]⟩
      rfl (fun commit hc => by
        obtain rfl : [7, 5, 6] = commit := Except.ok.inj hc
        decide)).1,
   ((ProcessProposal_undeclared_single_message demoApp demoWrongDeclaration ⟨[7], [5, 6, 9]⟩
      rfl (fun commit hc => by
        obtain rfl : [7, 5, 6] = commit := Except.ok.inj hc
        decide)).2.1).2 ⟨by decide, [7, 5, 6], rfl⟩⟩

/-! ## Logging -/

/-- A rejection after the cardinality check logs exactly one entry, under the message
`rejectedPropBlockLog` and with a reason. -/
theorem ProcessProposal_reject_log_of_length_eq {EDS DAH : Type} (a : App EDS DAH)
    (req : RequestProcessProposal)
    (h : (extractCommitments a req.BlockData.Txs).length = (messagesOf req).length)
    (hrej : (ProcessProposal a req).outcome = reject) :
    ∃ entry, (ProcessProposal a req).log = [entry] ∧ entry.msg = rejectedPropBlockLog ∧
      entry.keyvals.head? = some "reason" := by
  have hchk : ∀ msgs entry,
      checkMessages a (squareSizeOf req) (extractCommitments a req.BlockData.Txs) msgs
        = some entry →
      entry.msg = rejectedPropBlockLog ∧ entry.keyvals.head? = some "reason" := by
    intro msgs
    induction msgs with
    | nil => intro entry he; simp [checkMessages] at he
    | cons m rest ih =>
      intro entry he
      rw [checkMessages] at he
      cases hc : a.CreateCommitment (squareSizeOf req) m.NamespaceId m.Data with
      | error err =>
        rw [hc] at he
        obtain rfl : logCommitmentFailure err = entry := by simpa using he
        exact ⟨rfl, rfl⟩
      | ok commit =>
        rw [hc] at he
        by_cases hmem : commit ∈ extractCommitments a req.BlockData.Txs
        · exact ih entry (by simpa [hmem] using he)
        · obtain rfl : logMissingPFM = entry := by simpa [hmem] using he
          exact ⟨rfl, rfl⟩
  rcases ProcessProposal_cases a req with ⟨hne, _⟩ | ⟨_, hrest⟩
  · exact absurd h hne
  · rcases hrest with ⟨entry, hc, hrun⟩ | ⟨_, ⟨err, _, hrun⟩ | ⟨sq, _, hrest⟩⟩
    · exact ⟨entry, by rw [hrun], hchk _ entry hc⟩
    · rw [hrun] at hrej; simp [reject] at hrej
    · rcases hrest with ⟨err, _, hrun⟩ | ⟨eds, _, ⟨_, hrun⟩ | ⟨_, hrun⟩⟩
      · exact ⟨logErasureFailure err, by rw [hrun], rfl, rfl⟩
      · exact ⟨logRootMismatch, by rw [hrun], rfl, rfl⟩
      · rw [hrun] at hrej; simp [reject, accept] at hrej

/-- C10. Evaluation at a block with one declaration and no message: ProcessProposal returns
REJECT and the call logs nothing, no rejected-proposal entry and no reason. -/
theorem ProcessProposal_cardinality_reject_logs_nothing :
    (extractCommitments demoApp demoUnmatched.BlockData.Txs).length = 1 ∧
    demoUnmatched.BlockData.Messages.MessagesList.length = 0 ∧
    (ProcessProposal demoApp demoUnmatched).outcome = reject ∧
    (ProcessProposal demoApp demoUnmatched).log = [] := by
  decide

/-! ## What each stage reads -/

theorem collectTxs_congr {EDS DAH EDS2 DAH2 : Type} (a : App EDS DAH) (b : App EDS2 DAH2)
    (hd : a.TxDecoder = b.TxDecoder) (hu : a.URLMsgPayforMessage = b.URLMsgPayforMessage)
    (cs : List Bytes) (txs : List Bytes) : collectTxs a cs txs = collectTxs b cs txs := by
  induction txs generalizing cs with
  | nil => rfl
  | cons rawTx rest ih =>
    rw [collectTxs, collectTxs, ← hd, ← hu]
    cases a.TxDecoder rawTx with
    | error err => exact ih cs
    | ok tx => exact ih _

theorem extractCommitments_congr {EDS DAH EDS2 DAH2 : Type} (a : App EDS DAH)
    (b : App EDS2 DAH2) (hd : a.TxDecoder = b.TxDecoder)
    (hu : a.URLMsgPayforMessage = b.URLMsgPayforMessage) (txs : List Bytes) :
    extractCommitments a txs = extractCommitments b txs :=
  collectTxs_congr a b hd hu [] txs

theorem checkMessages_congr {EDS DAH EDS2 DAH2 : Type} (a : App EDS DAH) (b : App EDS2 DAH2)
    (hc : a.CreateCommitment = b.CreateCommitment) (k : Nat) (cs : List Bytes)
    (msgs : List Message) : checkMessages a k cs msgs = checkMessages b k cs msgs := by
  induction msgs with
  | nil => rfl
  | cons m rest ih =>
    rw [checkMessages, checkMessages, ← hc]
    cases a.CreateCommitment k m.NamespaceId m.Data with
    | error err => rfl
    | ok commit =>
      by_cases hmem : commit ∈ cs
      · simpa [hmem] using ih
      · simp [hmem]

theorem checkMessages_some_of_unmatched {EDS DAH : Type} (a : App EDS DAH) (k : Nat)
    (cs : List Bytes) (msgs : List Message)
    (h : ∃ msg ∈ msgs, ∀ commit, a.CreateCommitment k msg.NamespaceId msg.Data = .ok commit →
      commit ∉ cs) :
    ∃ entry, checkMessages a k cs msgs = some entry := by
  cases hc : checkMessages a k cs msgs with
  | some entry => exact ⟨entry, rfl⟩
  | none =>
    obtain ⟨msg, hmem, hno⟩ := h
    obtain ⟨commit, hok, hin⟩ := (checkMessages_eq_none_iff a k cs msgs).1 hc msg hmem
    exact absurd hin (hno commit hok)

theorem declarations_append {EDS DAH : Type} (a : App EDS DAH) (xs ys : List Bytes) :
    declarations a (xs ++ ys) = declarations a xs ++ declarations a ys := by
  induction xs with
  | nil => rfl
  | cons x rest ih => simp [declarations, ih]

theorem mem_declarations {EDS DAH : Type} (a : App EDS DAH) (txs : List Bytes) (c : Bytes) :
    c ∈ declarations a txs ↔ ∃ rawTx ∈ txs, c ∈ txDeclarations a rawTx := by
  induction txs with
  | nil => simp [declarations]
  | cons x rest ih => simp [declarations, ih]

theorem declaredBy_eq_some (url : String) (msg : Msg) (c : Bytes) :
    declaredBy url msg = some c ↔
      msg.typeURL = url ∧ ∃ pfm, msg.asMsgPayForMessage = some pfm ∧
        pfm.MessageShareCommitment = c := by
  unfold declaredBy
  by_cases hurl : msg.typeURL = url
  · simp [hurl]
  · simp [hurl]

/-! ## Extraction -/

/-- C11. Commitment extraction is exact and decode-tolerant: a byte string is in the
extracted set exactly when some transaction of the list decodes and contains a message
whose type URL is the pay-for-message URL, which is a MsgPayForMessage and whose
MessageShareCommitment is that byte string; and a transaction that does not decode
contributes nothing: with it or without it, anywhere in the list, the extracted set is the
same, so the cardinality check and the lookups of the per-message check are unaffected. -/
theorem extractCommitments_exact {EDS DAH : Type} (a : App EDS DAH) (txs : List Bytes)
    (before after : List Bytes) (rawTx : Bytes) (err : String)
    (hdec : a.TxDecoder rawTx = .error err) :
    (∀ c : Bytes, c ∈ extractCommitments a txs ↔
      ∃ raw ∈ txs, ∃ tx, a.TxDecoder raw = .ok tx ∧
        ∃ msg ∈ tx.GetMsgs, msg.typeURL = a.URLMsgPayforMessage ∧
          ∃ pfm, msg.asMsgPayForMessage = some pfm ∧ pfm.MessageShareCommitment = c) ∧
    extractCommitments a (before ++ rawTx :: after) = extractCommitments a (before ++ after) ∧
    (∀ (k : Nat) (msgs : List Message),
      checkMessages a k (extractCommitments a (before ++ rawTx :: after)) msgs =
        checkMessages a k (extractCommitments a (before ++ after)) msgs) := by
  have hset : extractCommitments a (before ++ rawTx :: after) =
      extractCommitments a (before ++ after) := by
    have hnone : txDeclarations a rawTx = [] := by simp [txDeclarations, hdec]
    rw [extractCommitments_eq_foldl, extractCommitments_eq_foldl, declarations_append,
      declarations_append, declarations, hnone, List.nil_append]
  refine ⟨fun c => ?_, hset, fun k msgs => by rw [hset]⟩
  rw [mem_extractCommitments, mem_declarations]
  constructor
  · rintro ⟨raw, hraw, hc⟩
    unfold txDeclarations at hc
    cases hd : a.TxDecoder raw with
    | error e => rw [hd] at hc; simp at hc
    | ok tx =>
      rw [hd] at hc
      obtain ⟨msg, hmsg, hdecl⟩ := List.mem_filterMap.1 hc
      obtain ⟨hurl, pfm, hpfm, hcommit⟩ := (declaredBy_eq_some _ msg c).1 hdecl
      exact ⟨raw, hraw, tx, hd, msg, hmsg, hurl, pfm, hpfm, hcommit⟩
  · rintro ⟨raw, hraw, tx, hd, msg, hmsg, hurl, pfm, hpfm, hcommit⟩
    refine ⟨raw, hraw, ?_⟩
    unfold txDeclarations
    rw [hd]
    exact List.mem_filterMap.2
      ⟨msg, hmsg, (declaredBy_eq_some _ msg c).2 ⟨hurl, pfm, hpfm, hcommit⟩⟩

/-- The extraction theorem applied to `demoApp`: the raw transaction `[3, 1]` does not
decode, and the list with it gives the same set as the list without it. -/
theorem extractCommitments_exact_witness :
    demoApp.TxDecoder [3, 1] = .error "tx parse error" ∧
    extractCommitments demoApp [[1, 7, 5, 6], [3, 1], [1, 8]] = [[7, 5, 6], [8]] ∧
    extractCommitments demoApp ([[1, 7, 5, 6]] ++ [3, 1] :: [[1, 8]]) =
      extractCommitments demoApp ([[1, 7, 5, 6]] ++ [[1, 8]]) :=
  ⟨rfl, by decide,
   (extractCommitments_exact demoApp [] [[1, 7, 5, 6]] [[1, 8]] [3, 1] "tx parse error"
      rfl).2.1⟩

/-! ## Coding failure -/

/-- C12. Coding failure rejects: when the cardinality check and the per-message commitment
check pass and WriteSquare succeeds, an error of ExtendShares makes ProcessProposal return
REJECT with the erasure-coding failure reason carrying that error; no root is computed or
compared: the result is the same whatever NewDataAvailabilityHeader, Hash and the header
are. -/
theorem ProcessProposal_coding_failure_reject {EDS DAH : Type} (a : App EDS DAH)
    (req : RequestProcessProposal) (dataSquare : List Bytes) (err : String)
    (hlen : (extractCommitments a req.BlockData.Txs).length =
      req.BlockData.Messages.MessagesList.length)
    (hmatch : ∀ msg ∈ req.BlockData.Messages.MessagesList, ∃ commit,
      a.CreateCommitment req.BlockData.OriginalSquareSize msg.NamespaceId msg.Data
        = .ok commit ∧
      commit ∈ extractCommitments a req.BlockData.Txs)
    (hw : a.WriteSquare req.BlockData.OriginalSquareSize req.BlockData = .ok dataSquare)
    (he : a.ExtendShares req.BlockData.OriginalSquareSize dataSquare = .error err) :
    ProcessProposal a req = ⟨[logErasureFailure err], reject⟩ ∧
    ∀ (DAH2 : Type) (newHeader : EDS → DAH2) (hash : DAH2 → Bytes) (header : Header),
      ProcessProposal (a.withRoot newHeader hash) (withHeader req header)
        = ⟨[logErasureFailure err], reject⟩ := by
  have hc := (checkMessages_eq_none_iff a req.BlockData.OriginalSquareSize _ _).2 hmatch
  refine ⟨ProcessProposal_of_extend_error a req dataSquare err hlen hc hw he,
    fun DAH2 newHeader hash header => ?_⟩
  have hx : ∀ txs, extractCommitments (a.withRoot newHeader hash) txs
      = extractCommitments a txs :=
    fun txs => extractCommitments_congr (a.withRoot newHeader hash) a rfl rfl txs
  have hk : ∀ k cs msgs, checkMessages (a.withRoot newHeader hash) k cs msgs
      = checkMessages a k cs msgs :=
    fun k cs msgs => checkMessages_congr (a.withRoot newHeader hash) a rfl k cs msgs
  refine ProcessProposal_of_extend_error (a.withRoot newHeader hash) (withHeader req header)
    dataSquare err ?_ ?_ hw he
  · rw [hx]
    exact hlen
  · rw [hx, hk]
    exact hc

/-- The coding-failure theorem applied to `demoStrictApp`: a matching declaration and
message, a square that is built, and shares of unequal width. -/
theorem ProcessProposal_coding_failure_reject_witness :
    demoStrictApp.ExtendShares demoAccepted.BlockData.OriginalSquareSize
      [[1, 7, 5, 6], [5, 6, 9], [], []] = .error "share width" ∧
    ProcessProposal demoStrictApp demoAccepted
      = ⟨[logErasureFailure "share width"], reject⟩ :=
  ⟨rfl,
   (ProcessProposal_coding_failure_reject demoStrictApp demoAccepted
      [[1, 7, 5, 6], [5, 6, 9], [], []] "share width" (by decide)
      (fun msg hmem => by
        obtain rfl : msg = ⟨[7], [5, 6, 9]⟩ := by simpa [demoAccepted, mkReq] using hmem
        exact ⟨[7, 5, 6], rfl, by decide⟩)
      rfl rfl).1⟩

/-! ## Stage order -/

/-- C14. Stage order guards the halt: a request that fails the cardinality check or has a
bulk message without a derivable, declared commitment is rejected and does not halt, and
the result does not depend on WriteSquare, so neither on whether WriteSquare would fail;
when the cardinality check fails the result depends on neither CreateCommitment nor
WriteSquare; and a call that panics has passed the cardinality check and found, for every
bulk message, a derived commitment in the extracted set. -/
theorem ProcessProposal_matcher_guards_halt {EDS DAH : Type} (a : App EDS DAH)
    (req : RequestProcessProposal)
    (hfail : (extractCommitments a req.BlockData.Txs).length ≠
        req.BlockData.Messages.MessagesList.length ∨
      ∃ msg ∈ req.BlockData.Messages.MessagesList, ∀ commit,
        a.CreateCommitment req.BlockData.OriginalSquareSize msg.NamespaceId msg.Data
          = .ok commit → commit ∉ extractCommitments a req.BlockData.Txs) :
    (ProcessProposal a req).outcome = reject ∧
    (∀ err : String, (ProcessProposal a req).outcome ≠ .panicked err) ∧
    (∀ writeSquare : Nat → Data → Except String (List Bytes),
      ProcessProposal (a.withWriteSquare writeSquare) req = ProcessProposal a req) ∧
    ((extractCommitments a req.BlockData.Txs).length ≠
        req.BlockData.Messages.MessagesList.length →
      ∀ (createCommitment : Nat → Bytes → Bytes → Except String Bytes)
        (writeSquare : Nat → Data → Except String (List Bytes)),
        ProcessProposal ((a.withCreateCommitment createCommitment).withWriteSquare writeSquare)
          req = ⟨[], reject⟩) ∧
    (∀ (other : RequestProcessProposal) (err : String),
      (ProcessProposal a other).outcome = .panicked err →
      (extractCommitments a other.BlockData.Txs).length =
        other.BlockData.Messages.MessagesList.length ∧
      ∀ msg ∈ other.BlockData.Messages.MessagesList, ∃ commit,
        a.CreateCommitment other.BlockData.OriginalSquareSize msg.NamespaceId msg.Data
          = .ok commit ∧
        commit ∈ extractCommitments a other.BlockData.Txs) := by
  have hrun : ∃ log, (∀ writeSquare : Nat → Data → Except String (List Bytes),
      ProcessProposal (a.withWriteSquare writeSquare) req = ⟨log, reject⟩) ∧
      ProcessProposal a req = ⟨log, reject⟩ := by
    by_cases hlen : (extractCommitments a req.BlockData.Txs).length =
        req.BlockData.Messages.MessagesList.length
    · rcases hfail with hne | hmsg
      · exact absurd hlen hne
      · obtain ⟨entry, hentry⟩ := checkMessages_some_of_unmatched a
          req.BlockData.OriginalSquareSize _ _ hmsg
        refine ⟨[entry], fun writeSquare => ?_,
          ProcessProposal_of_check_some a req entry hlen hentry⟩
        refine ProcessProposal_of_check_some _ req entry ?_ ?_
        · rw [extractCommitments_congr (a.withWriteSquare writeSquare) a rfl rfl]
          exact hlen
        · rw [extractCommitments_congr (a.withWriteSquare writeSquare) a rfl rfl,
            checkMessages_congr (a.withWriteSquare writeSquare) a rfl]
          exact hentry
    · refine ⟨[], fun writeSquare => ?_, ProcessProposal_of_length_ne a req hlen⟩
      refine ProcessProposal_of_length_ne _ req ?_
      rw [extractCommitments_congr (a.withWriteSquare writeSquare) a rfl rfl]
      exact hlen
  obtain ⟨log, hws, hreq⟩ := hrun
  refine ⟨by rw [hreq], fun err hp => ?_, fun writeSquare => by rw [hws, hreq],
    fun hne createCommitment writeSquare => ?_, fun other err hp => ?_⟩
  · rw [hreq] at hp
    simp [reject] at hp
  · refine ProcessProposal_of_length_ne _ req ?_
    rw [extractCommitments_congr
      ((a.withCreateCommitment createCommitment).withWriteSquare writeSquare) a rfl rfl]
    exact hne
  · rcases ProcessProposal_cases a other with ⟨_, hrun⟩ | ⟨h, hrest⟩
    · rw [hrun] at hp; simp [reject] at hp
    · rcases hrest with ⟨entry, _, hrun⟩ | ⟨hc, _⟩
      · rw [hrun] at hp; simp [reject] at hp
      · exact ⟨h, (checkMessages_eq_none_iff a _ _ _).1 hc⟩

/-- The stage-order theorem applied to two blocks of `demoApp` on which WriteSquare fails:
one with a declaration and no message, one whose message is too large for a commitment. -/
theorem ProcessProposal_matcher_guards_halt_witness :
    (demoApp.WriteSquare demoMismatchOverflow.BlockData.OriginalSquareSize
        demoMismatchOverflow.BlockData = .error "square too small" ∧
      (ProcessProposal demoApp demoMismatchOverflow).outcome = reject) ∧
    (demoApp.WriteSquare demoUnderivableOverflow.BlockData.OriginalSquareSize
        demoUnderivableOverflow.BlockData = .error "square too small" ∧
      (ProcessProposal demoApp demoUnderivableOverflow).outcome = reject) :=
  ⟨⟨rfl, (ProcessProposal_matcher_guards_halt demoApp demoMismatchOverflow
      (Or.inl (by decide))).1⟩,
   ⟨rfl, (ProcessProposal_matcher_guards_halt demoApp demoUnderivableOverflow
      (Or.inr ⟨⟨[7], [5, 6, 9]⟩, by decide, fun commit hc => by
        have hc2 : (Except.error "message too large" : Except String Bytes) = .ok commit := hc
        exact Except.noConfusion hc2⟩)).1⟩⟩

/-! ## The first failing message -/

theorem exists_first_not {α : Type} (P : α → Prop) (l : List α) (h : ∃ x ∈ l, ¬ P x) :
    ∃ before m after, l = before ++ m :: after ∧ (∀ x ∈ before, P x) ∧ ¬ P m := by
  induction l with
  | nil =>
    obtain ⟨x, hx, _⟩ := h
    cases hx
  | cons y rest ih =>
    by_cases hy : P y
    · have hrest : ∃ x ∈ rest, ¬ P x := by
        obtain ⟨x, hx, hnx⟩ := h
        rcases List.mem_cons.1 hx with rfl | hx
        · exact absurd hy hnx
        · exact ⟨x, hx, hnx⟩
      obtain ⟨before, m, after, hl, hb, hm⟩ := ih hrest
      refine ⟨y :: before, m, after, by rw [hl]; rfl, fun x hx => ?_, hm⟩
      rcases List.mem_cons.1 hx with rfl | hx
      · exact hy
      · exact hb x hx
    · exact ⟨[], y, rest, rfl, fun x hx => absurd hx (List.not_mem_nil x), hy⟩

theorem checkMessages_append_of_pass {EDS DAH : Type} (a : App EDS DAH) (k : Nat)
    (cs : List Bytes) (before rest : List Message)
    (hpass : ∀ msg ∈ before, ∃ commit,
      a.CreateCommitment k msg.NamespaceId msg.Data = .ok commit ∧ commit ∈ cs) :
    checkMessages a k cs (before ++ rest) = checkMessages a k cs rest := by
  induction before with
  | nil => rfl
  | cons m tail ih =>
    obtain ⟨commit, hok, hin⟩ := hpass m (List.mem_cons_self m tail)
    rw [List.cons_append, checkMessages, hok]
    simp only [hin, not_true_eq_false, if_false]
    exact ih fun msg hmsg => hpass msg (List.mem_cons_of_mem m hmsg)

theorem checkMessages_first_failing {EDS DAH : Type} (a : App EDS DAH) (k : Nat)
    (cs : List Bytes) (before after : List Message) (m : Message)
    (hpass : ∀ msg ∈ before, ∃ commit,
      a.CreateCommitment k msg.NamespaceId msg.Data = .ok commit ∧ commit ∈ cs)
    (hm : ∀ commit, a.CreateCommitment k m.NamespaceId m.Data = .ok commit → commit ∉ cs) :
    checkMessages a k cs (before ++ m :: after) =
      match a.CreateCommitment k m.NamespaceId m.Data with
      | .error err => some (logCommitmentFailure err)
      | .ok _ => some logMissingPFM := by
  rw [checkMessages_append_of_pass a k cs before (m :: after) hpass, checkMessages]
  cases hc : a.CreateCommitment k m.NamespaceId m.Data with
  | error err => rfl
  | ok commit => simp [hm commit hc]

/-- C15. The reason of a rejection in the per-message check is decided by the first failing
message: a request that passes the cardinality check and has a bulk message without a
derivable, declared commitment has a first such message in list order; when the messages
before `m` all pass and `m` is the first that does not, the reason is the
commitment-derivation failure (with the error of `m`) if CreateCommitment fails for `m`,
and the missing declaration otherwise; the messages after `m` do not matter: replacing
them by as many others leaves the result unchanged. -/
theorem ProcessProposal_first_failing_message_reason {EDS DAH : Type} (a : App EDS DAH)
    (req : RequestProcessProposal)
    (hlen : (extractCommitments a req.BlockData.Txs).length =
      req.BlockData.Messages.MessagesList.length)
    (hfail : ∃ msg ∈ req.BlockData.Messages.MessagesList, ∀ commit,
      a.CreateCommitment req.BlockData.OriginalSquareSize msg.NamespaceId msg.Data
        = .ok commit → commit ∉ extractCommitments a req.BlockData.Txs) :
    (∃ before m after, req.BlockData.Messages.MessagesList = before ++ m :: after ∧
      (∀ msg ∈ before, ∃ commit,
        a.CreateCommitment req.BlockData.OriginalSquareSize msg.NamespaceId msg.Data
          = .ok commit ∧ commit ∈ extractCommitments a req.BlockData.Txs) ∧
      ∀ commit, a.CreateCommitment req.BlockData.OriginalSquareSize m.NamespaceId m.Data
        = .ok commit → commit ∉ extractCommitments a req.BlockData.Txs) ∧
    ∀ before m after, req.BlockData.Messages.MessagesList = before ++ m :: after →
      (∀ msg ∈ before, ∃ commit,
        a.CreateCommitment req.BlockData.OriginalSquareSize msg.NamespaceId msg.Data
          = .ok commit ∧ commit ∈ extractCommitments a req.BlockData.Txs) →
      (∀ commit, a.CreateCommitment req.BlockData.OriginalSquareSize m.NamespaceId m.Data
        = .ok commit → commit ∉ extractCommitments a req.BlockData.Txs) →
      (∀ err, a.CreateCommitment req.BlockData.OriginalSquareSize m.NamespaceId m.Data
          = .error err →
        ProcessProposal a req = ⟨[logCommitmentFailure err], reject⟩) ∧
      (∀ commit, a.CreateCommitment req.BlockData.OriginalSquareSize m.NamespaceId m.Data
          = .ok commit →
        ProcessProposal a req = ⟨[logMissingPFM], reject⟩) ∧
      (∀ others : List Message, others.length = after.length →
        ProcessProposal a (withMessages req (before ++ m :: others))
          = ProcessProposal a req) := by
  constructor
  · obtain ⟨before, m, after, hl, hb, hm⟩ := exists_first_not
      (fun msg : Message => ∃ commit,
        a.CreateCommitment req.BlockData.OriginalSquareSize msg.NamespaceId msg.Data
          = .ok commit ∧ commit ∈ extractCommitments a req.BlockData.Txs)
      req.BlockData.Messages.MessagesList
      (by
        obtain ⟨msg, hmem, hno⟩ := hfail
        exact ⟨msg, hmem, fun ⟨commit, hok, hin⟩ => hno commit hok hin⟩)
    exact ⟨before, m, after, hl, hb, fun commit hok hin => hm ⟨commit, hok, hin⟩⟩
  · intro before m after hl hb hm
    have hchk : ∀ others : List Message,
        checkMessages a req.BlockData.OriginalSquareSize
          (extractCommitments a req.BlockData.Txs) (before ++ m :: others) =
        match a.CreateCommitment req.BlockData.OriginalSquareSize m.NamespaceId m.Data with
        | .error err => some (logCommitmentFailure err)
        | .ok _ => some logMissingPFM :=
      fun others => checkMessages_first_failing a _ _ before others m hb hm
    have hreq : ∀ entry,
        (match a.CreateCommitment req.BlockData.OriginalSquareSize m.NamespaceId m.Data with
        | .error err => some (logCommitmentFailure err)
        | .ok _ => some logMissingPFM) = some entry →
        ProcessProposal a req = ⟨[entry], reject⟩ := by
      intro entry he
      refine ProcessProposal_of_check_some a req entry hlen ?_
      show checkMessages a req.BlockData.OriginalSquareSize
        (extractCommitments a req.BlockData.Txs) req.BlockData.Messages.MessagesList = some entry
      rw [hl, hchk after, he]
    refine ⟨fun err herr => hreq _ (by rw [herr]), fun commit hok => hreq _ (by rw [hok]),
      fun others hothers => ?_⟩
    have hlen2 :
        (extractCommitments a (withMessages req (before ++ m :: others)).BlockData.Txs).length
          = (messagesOf (withMessages req (before ++ m :: others))).length := by
      show (extractCommitments a req.BlockData.Txs).length = (before ++ m :: others).length
      rw [hlen, hl]
      simp [hothers]
    cases hc : a.CreateCommitment req.BlockData.OriginalSquareSize m.NamespaceId m.Data with
    | error err =>
      rw [hreq (logCommitmentFailure err) (by rw [hc])]
      refine ProcessProposal_of_check_some a _ _ hlen2 ?_
      show checkMessages a req.BlockData.OriginalSquareSize
        (extractCommitments a req.BlockData.Txs) (before ++ m :: others) = _
      rw [hchk others, hc]
    | ok commit =>
      rw [hreq logMissingPFM (by rw [hc])]
      refine ProcessProposal_of_check_some a _ _ hlen2 ?_
      show checkMessages a req.BlockData.OriginalSquareSize
        (extractCommitments a req.BlockData.Txs) (before ++ m :: others) = _
      rw [hchk others, hc]

/-- The first-failing-message theorem applied to two blocks of `demoApp` with three
messages: in one the second message is undeclared and the third underivable, in the other
the second is underivable and the third undeclared; the second message decides. -/
theorem ProcessProposal_first_failing_message_reason_witness :
    ProcessProposal demoApp demoSecondUndeclared = ⟨[logMissingPFM], reject⟩ ∧
    ProcessProposal demoApp demoSecondUnderivable
      = ⟨[logCommitmentFailure "message too large"], reject⟩ :=
  ⟨((ProcessProposal_first_failing_message_reason demoApp demoSecondUndeclared (by decide)
      ⟨⟨[7], [4, 4]⟩, by decide, fun commit hc => by
        obtain rfl : [7, 4, 4] = commit := Except.ok.inj hc
        decide⟩).2
      [⟨[7], [5, 6, 9]⟩] ⟨[7], [4, 4]⟩ [⟨[8], [1, 1, 0, 0, 0]⟩] rfl
      (fun msg hmem => by
        obtain rfl : msg = ⟨[7], [5, 6, 9]⟩ := by simpa using hmem
        exact ⟨[7, 5, 6], rfl, by decide⟩)
      (fun commit hc => by
        obtain rfl : [7, 4, 4] = commit := Except.ok.inj hc
        decide)).2.1 [7, 4, 4] rfl,
   ((ProcessProposal_first_failing_message_reason demoApp demoSecondUnderivable (by decide)
      ⟨⟨[7], [4, 4]⟩, by decide, fun commit hc => by
        obtain rfl : [7, 4, 4] = commit := Except.ok.inj hc
        decide⟩).2
      [⟨[7], [5, 6, 9]⟩] ⟨[8], [1, 1, 0, 0, 0]⟩ [⟨[7], [4, 4]⟩] rfl
      (fun msg hmem => by
        obtain rfl : msg = ⟨[7], [5, 6, 9]⟩ := by simpa using hmem
        exact ⟨[7, 5, 6], rfl, by decide⟩)
      (fun commit hc => by
        have hc2 : (Except.error "message too large" : Except String Bytes) = .ok commit := hc
        exact Except.noConfusion hc2)).1 "message too large" rfl⟩

/-! ## The header -/

/-- C16. The header acts through DataHash only: two requests with the same block data and
the same Header.DataHash give the same result (outcome and log) whatever their other header
fields are; and when the call ends before the root comparison (cardinality mismatch, a
message without a derivable declared commitment, WriteSquare failing, ExtendShares failing)
the result is the same under every header, whatever its DataHash. -/
theorem ProcessProposal_header_only_DataHash {EDS DAH : Type} (a : App EDS DAH)
    (req1 req2 : RequestProcessProposal) (hdata : req1.BlockData = req2.BlockData)
    (hhash : req1.Header.DataHash = req2.Header.DataHash) :
    ProcessProposal a req1 = ProcessProposal a req2 ∧
    (((extractCommitments a req1.BlockData.Txs).length ≠
          req1.BlockData.Messages.MessagesList.length ∨
        (∃ msg ∈ req1.BlockData.Messages.MessagesList, ∀ commit,
          a.CreateCommitment req1.BlockData.OriginalSquareSize msg.NamespaceId msg.Data
            = .ok commit → commit ∉ extractCommitments a req1.BlockData.Txs) ∨
        (∃ err, a.WriteSquare req1.BlockData.OriginalSquareSize req1.BlockData
          = .error err) ∨
        (∃ dataSquare err,
          a.WriteSquare req1.BlockData.OriginalSquareSize req1.BlockData = .ok dataSquare ∧
          a.ExtendShares req1.BlockData.OriginalSquareSize dataSquare = .error err)) →
      ∀ header : Header,
        ProcessProposal a (withHeader req1 header) = ProcessProposal a req1) := by
  constructor
  · unfold ProcessProposal
    rw [hdata, hhash]
  · intro hearly header
    rcases ProcessProposal_cases a req1 with ⟨hne, hrun⟩ | ⟨hlen, hrest⟩
    · rw [hrun]
      exact ProcessProposal_of_length_ne a (withHeader req1 header) hne
    · rcases hrest with ⟨entry, hc, hrun⟩ | ⟨hc, hrest⟩
      · rw [hrun]
        exact ProcessProposal_of_check_some a (withHeader req1 header) entry hlen hc
      · rcases hrest with ⟨err, hw, hrun⟩ | ⟨dataSquare, hw, hrest⟩
        · rw [hrun]
          exact ProcessProposal_of_write_error a (withHeader req1 header) err hlen hc hw
        · rcases hrest with ⟨err, he, hrun⟩ | ⟨eds, he, _⟩
          · rw [hrun]
            exact ProcessProposal_of_extend_error a (withHeader req1 header) dataSquare err
              hlen hc hw he
          · exfalso
            rcases hearly with hne | ⟨msg, hmem, hno⟩ | ⟨err, hw2⟩ | ⟨sq, err, hw2, he2⟩
            · exact hne hlen
            · obtain ⟨commit, hok, hin⟩ := (checkMessages_eq_none_iff a _ _ _).1 hc msg hmem
              exact hno commit hok hin
            · have hw3 : a.WriteSquare req1.BlockData.OriginalSquareSize req1.BlockData
                  = .ok dataSquare := hw
              rw [hw2] at hw3
              exact Except.noConfusion hw3
            · have hw3 : a.WriteSquare req1.BlockData.OriginalSquareSize req1.BlockData
                  = .ok dataSquare := hw
              rw [hw2] at hw3
              obtain rfl : sq = dataSquare := Except.ok.inj hw3
              have he3 : a.ExtendShares req1.BlockData.OriginalSquareSize sq = .ok eds := he
              rw [he2] at he3
              exact Except.noConfusion he3

/-- The header theorem applied to `demoApp`: the accepted block under two headers with the
same DataHash and different other fields, and a block rejected by the cardinality check
under a header with another DataHash. -/
theorem ProcessProposal_header_only_DataHash_witness :
    demoAccepted.Header ≠ demoAcceptedOtherHeader.Header ∧
    ProcessProposal demoApp demoAccepted = ProcessProposal demoApp demoAcceptedOtherHeader ∧
    ProcessProposal demoApp (withHeader demoUnmatched ⟨[9, 9], [[1]]⟩)
      = ProcessProposal demoApp demoUnmatched :=
  ⟨by decide,
   (ProcessProposal_header_only_DataHash demoApp demoAccepted demoAcceptedOtherHeader
      rfl rfl).1,
   (ProcessProposal_header_only_DataHash demoApp demoUnmatched demoUnmatched rfl rfl).2
      (Or.inl (by decide)) ⟨[9, 9], [[1]]⟩⟩

/-! ## Repeated calls -/

theorem Node.handleAll_app {EDS DAH : Type} (n : Node EDS DAH)
    (reqs : List RequestProcessProposal) : (n.handleAll reqs).app = n.app := by
  induction reqs generalizing n with
  | nil => rfl
  | cons req rest ih =>
    rw [Node.handleAll, ih]
    rfl

/-- Every call takes one of the exits. -/
theorem Exit_ProcessProposal {EDS DAH : Type} (a : App EDS DAH) (req : RequestProcessProposal) :
    Exit a req (ProcessProposal a req) := by
  rcases ProcessProposal_cases a req with ⟨hne, hrun⟩ | ⟨hlen, hrest⟩
  · rw [hrun]
    exact Exit.cardinality hne
  · rcases hrest with ⟨entry, hc, hrun⟩ | ⟨hc, hrest⟩
    · rw [hrun]
      obtain ⟨before, m, after, hsplit, hbefore, hm⟩ := exists_first_not
        (fun msg : Message => ∃ commit,
          a.CreateCommitment req.BlockData.OriginalSquareSize msg.NamespaceId msg.Data
            = .ok commit ∧ commit ∈ extractCommitments a req.BlockData.Txs)
        req.BlockData.Messages.MessagesList
        (by
          obtain ⟨msg, hmem, hno⟩ := unmatched_of_checkMessages_some a _ _ _ entry hc
          exact ⟨msg, hmem, fun ⟨commit, hok, hin⟩ => hno commit hok hin⟩)
      have hfirst := checkMessages_first_failing a req.BlockData.OriginalSquareSize
        (extractCommitments a req.BlockData.Txs) before after m hbefore
        (fun commit hok hin => hm ⟨commit, hok, hin⟩)
      have hc2 : checkMessages a req.BlockData.OriginalSquareSize
          (extractCommitments a req.BlockData.Txs) (before ++ m :: after) = some entry := by
        rw [← hsplit]
        exact hc
      rw [hc2] at hfirst
      cases hcm : a.CreateCommitment req.BlockData.OriginalSquareSize m.NamespaceId
          m.Data with
      | error err =>
        rw [hcm] at hfirst
        obtain rfl : entry = logCommitmentFailure err := Option.some.inj hfirst
        exact Exit.derivation before after m err hlen hsplit hbefore hcm
      | ok commit =>
        rw [hcm] at hfirst
        obtain rfl : entry = logMissingPFM := Option.some.inj hfirst
        exact Exit.missing before after m commit hlen hsplit hbefore hcm
          (fun hin => hm ⟨commit, hcm, hin⟩)
    · have hall := (checkMessages_eq_none_iff a _ _ _).1 hc
      rcases hrest with ⟨err, hw, hrun⟩ | ⟨sq, hw, hrest⟩
      · rw [hrun]
        exact Exit.overflow err hlen hall hw
      · rcases hrest with ⟨err, he, hrun⟩ | ⟨eds, he, ⟨hr, hrun⟩ | ⟨hr, hrun⟩⟩
        · rw [hrun]
          exact Exit.coding sq err hlen hall hw he
        · rw [hrun]
          exact Exit.rootMismatch sq eds hlen hall hw he hr
        · rw [hrun]
          exact Exit.accepted sq eds hlen hall hw he hr

/-- An exit whose conditions hold is the one the call takes. -/
theorem Exit_eq_ProcessProposal {EDS DAH : Type} (a : App EDS DAH)
    (req : RequestProcessProposal) (run : Run) (h : Exit a req run) :
    run = ProcessProposal a req := by
  cases h with
  | cardinality hlen => exact (ProcessProposal_of_length_ne a req hlen).symm
  | derivation before after m err hlen hsplit hbefore hm =>
    refine (ProcessProposal_of_check_some a req _ hlen ?_).symm
    show checkMessages a req.BlockData.OriginalSquareSize
      (extractCommitments a req.BlockData.Txs) req.BlockData.Messages.MessagesList = _
    rw [hsplit, checkMessages_first_failing a _ _ before after m hbefore
      (fun commit hok => Except.noConfusion (hm.symm.trans hok)), hm]
  | missing before after m commit hlen hsplit hbefore hm hnot =>
    refine (ProcessProposal_of_check_some a req _ hlen ?_).symm
    show checkMessages a req.BlockData.OriginalSquareSize
      (extractCommitments a req.BlockData.Txs) req.BlockData.Messages.MessagesList = _
    rw [hsplit, checkMessages_first_failing a _ _ before after m hbefore
      (fun c hok => by
        obtain rfl : commit = c := Except.ok.inj (hm.symm.trans hok)
        exact hnot), hm]
  | overflow err hlen hall hw =>
    exact (ProcessProposal_of_write_error a req err hlen
      ((checkMessages_eq_none_iff a _ _ _).2 hall) hw).symm
  | coding sq err hlen hall hw he =>
    exact (ProcessProposal_of_extend_error a req sq err hlen
      ((checkMessages_eq_none_iff a _ _ _).2 hall) hw he).symm
  | rootMismatch sq eds hlen hall hw he hr =>
    exact (ProcessProposal_of_root_ne a req sq eds hlen
      ((checkMessages_eq_none_iff a _ _ _).2 hall) hw he hr).symm
  | accepted sq eds hlen hall hw he hr =>
    exact (ProcessProposal_of_root_eq a req sq eds hlen
      ((checkMessages_eq_none_iff a _ _ _).2 hall) hw he hr).symm

/-- C13. Determinism: the conditions of the exits of ProcessProposal, which read only the
request and the collaborators, fix the verdict and the logged reason (two runs that satisfy
them are equal); and whatever requests a node has handled before, a call on a request and a
second call on the same request right after it both take that exit: they have the same
outcome, send the same entries to the logger, and leave the collaborators as they were. -/
theorem ProcessProposal_deterministic {EDS DAH : Type} (n : Node EDS DAH)
    (req : RequestProcessProposal) (earlier : List RequestProcessProposal) :
    (∃ entries outcome,
      Exit n.app req ⟨entries, outcome⟩ ∧
      ((n.handleAll earlier).handle req).2 = outcome ∧
      ((n.handleAll earlier).handle req).1.logged =
        (n.handleAll earlier).logged ++ entries ∧
      (((n.handleAll earlier).handle req).1.handle req).2 = outcome ∧
      (((n.handleAll earlier).handle req).1.handle req).1.logged =
        ((n.handleAll earlier).handle req).1.logged ++ entries ∧
      (((n.handleAll earlier).handle req).1.handle req).1.app = n.app) ∧
    (∀ run1 run2 : Run, Exit n.app req run1 → Exit n.app req run2 → run1 = run2) := by
  refine ⟨⟨(ProcessProposal n.app req).log, (ProcessProposal n.app req).outcome,
    Exit_ProcessProposal n.app req, ?_, ?_, ?_, ?_, ?_⟩, fun run1 run2 h1 h2 => ?_⟩
  · simp only [Node.handle, Node.handleAll_app]
  · simp only [Node.handle, Node.handleAll_app]
  · simp only [Node.handle, Node.handleAll_app]
  · simp only [Node.handle, Node.handleAll_app]
  · simp only [Node.handle, Node.handleAll_app]
  · rw [Exit_eq_ProcessProposal n.app req run1 h1, Exit_eq_ProcessProposal n.app req run2 h2]

/-- The determinism theorem applied to a node of `demoApp` that has handled an accepted
block and a halting block: two calls on a block with one message and one declaration of
another commitment both return REJECT and both log the missing declaration. -/
theorem ProcessProposal_deterministic_witness :
    ((demoNode.handleAll [demoAccepted, demoOverflow]).handle demoWrongDeclaration).2
      = reject ∧
    (((demoNode.handleAll [demoAccepted, demoOverflow]).handle
      demoWrongDeclaration).1.handle demoWrongDeclaration).2 = reject ∧
    (((demoNode.handleAll [demoAccepted, demoOverflow]).handle
      demoWrongDeclaration).1.handle demoWrongDeclaration).1.logged
      = [logMissingPFM, logMissingPFM] := by
  obtain ⟨⟨entries, outcome, hexit, h1, h2, h3, h4, -⟩, huniq⟩ :=
    ProcessProposal_deterministic demoNode demoWrongDeclaration [demoAccepted, demoOverflow]
  have hmissing : Exit demoNode.app demoWrongDeclaration ⟨[logMissingPFM], reject⟩ :=
    Exit.missing [] [] ⟨[7], [5, 6, 9]⟩ [7, 5, 6] (by decide) rfl
      (fun msg hmem => absurd hmem (List.not_mem_nil msg)) rfl (by decide)
  have hrun := huniq _ _ hexit hmissing
  obtain ⟨rfl, rfl⟩ : entries = [logMissingPFM] ∧ outcome = reject := by
    simpa using hrun
  refine ⟨h1, h3, ?_⟩
  rw [h4, h2]
  rfl

end app
